import Mathlib

/-!
Verification development for the gcal calendar client.

This file gives a shallow embedding of the event-normalization pipeline
(`client.go`: convertEvent, extractMeetingURL, detectConflicts,
FetchTodayEvents) and of the credential/token persistence layer
(`oauth.go`: LoadCredentials, LoadToken, SaveToken, IsConfigured;
`types.go`: the output and token record types), together with theorems
settling the specification claims about them.

Modelling conventions:
* Go strings are Lean `String`s (comparison on UTF-8 bytes coincides with
  comparison on code points, which is what Lean's `String` order uses).
* `time.Parse(time.RFC3339, s)` is modelled by `parseRFC3339`, following
  the strict RFC 3339 parser of Go's time package; `time.Time.After` and
  `Before` compare absolute instants, modelled by `toInstant`.
* The four meeting-URL regular expressions are modelled concretely with
  leftmost-first, greedy matching semantics (RE2 semantics restricted to
  the shapes `https:// class* literal class+` and `https://literal class+`
  that the patterns have).
* The filesystem is a passed-around state holding the contents of the
  credential and token files; the remote calendar API is a parameter
  mapping a calendar id to a result, per the spec's external-interface
  view of those collaborators.
-/

namespace GCal

/-! ## Output data model (types.go) -/

/-- Event represents a calendar event for JSON output (types.go). -/
structure Event where
  ID : String
  Title : String
  Start : String
  End : String
  Attendees : List String
  AttendeeCount : Nat
  MeetingURL : String
  HasConflict : Bool
  ResponseStatus : String
deriving DecidableEq, Inhabited

/-- Response is the JSON output for gcal events (types.go).  The wall-clock
`LastSync` field is omitted: it is `time.Now()`, outside the embedding. -/
structure Response where
  Success : Bool
  Events : List Event
  Error : String
  Message : String
deriving DecidableEq, Inhabited

/-- Error code constants (types.go). -/
def ErrNotConfigured : String := "not_configured"

def ErrTokenExpired : String := "token_expired"

def ErrAPIError : String := "api_error"

/-- NewErrorResponse creates a structured error response (types.go). -/
def NewErrorResponse (code message : String) : Response :=
  { Success := false, Events := [], Error := code, Message := message }

/-- NewSuccessResponse creates a successful events response (types.go). -/
def NewSuccessResponse (events : List Event) : Response :=
  { Success := true, Events := events, Error := "", Message := "" }

/-! ## Raw provider events (the subset of google.golang.org/api/calendar/v3
fields read by client.go) -/

structure EventDateTime where
  DateTime : String
  Date : String
deriving DecidableEq, Inhabited

structure EventAttendee where
  Self : Bool
  Email : String
  DisplayName : String
  ResponseStatus : String
deriving DecidableEq, Inhabited

structure EntryPoint where
  EntryPointType : String
  Uri : String
deriving DecidableEq, Inhabited

structure ConferenceData where
  EntryPoints : List EntryPoint
deriving DecidableEq, Inhabited

structure CalendarEvent where
  Id : String
  Summary : String
  Status : String
  Start : EventDateTime
  End : EventDateTime
  Attendees : List EventAttendee
  HangoutLink : String
  ConferenceData : Option ConferenceData
  Description : String
  Location : String
deriving DecidableEq, Inhabited

/-! ## RFC 3339 timestamps

Model of Go's `time.Parse(time.RFC3339, s)` (strict parser of package time):
four-digit year, month 1..12, day validated against the month (leap years
included), hour 0..23, minute and second 0..59, an optional fractional
second, and a zone that is either `Z` or `±hh:mm`. -/

/-- Wall-clock components plus zone offset of a parsed RFC 3339 timestamp. -/
structure TimeStamp where
  year : Nat
  month : Nat
  day : Nat
  hour : Nat
  minute : Nat
  second : Nat
  nanos : Nat
  offsetSeconds : Int
deriving DecidableEq, Inhabited

def isDigitChar (c : Char) : Bool := '0' ≤ c && c ≤ '9'

def digitVal (c : Char) : Option Nat :=
  if '0' ≤ c && c ≤ '9' then some (c.toNat - 48) else none

/-- Parse two digit characters as a decimal number in the range `[lo, hi]`
(Go's `parseUint` on a two-byte slice). -/
def parse2 (a b : Char) (lo hi : Nat) : Option Nat := do
  let x ← digitVal a
  let y ← digitVal b
  let v := x * 10 + y
  if lo ≤ v && v ≤ hi then some v else none

/-- Parse four digit characters as a decimal number in the range `[lo, hi]`. -/
def parse4 (a b c d : Char) (lo hi : Nat) : Option Nat := do
  let x ← digitVal a
  let y ← digitVal b
  let z ← digitVal c
  let w ← digitVal d
  let v := ((x * 10 + y) * 10 + z) * 10 + w
  if lo ≤ v && v ≤ hi then some v else none

def isLeapYear (y : Nat) : Bool := y % 4 == 0 && (y % 100 != 0 || y % 400 == 0)

/-- Number of days in a month (Go's `daysIn`). -/
def daysIn (month year : Nat) : Nat :=
  if month = 2 then (if isLeapYear year then 29 else 28)
  else if month = 4 || month = 6 || month = 9 || month = 11 then 30
  else 31

/-- Nanoseconds denoted by a run of fractional-second digit characters:
Go's `parseNanoseconds` keeps at most nine digits and scales up to
nanoseconds. -/
def fracNanos (ds : List Char) : Nat :=
  let use := ds.take 9
  let v := use.foldl (fun acc c => acc * 10 + (c.toNat - 48)) 0
  v * 10 ^ (9 - use.length)

/-- Parse the zone suffix: `Z` or `±hh:mm`, yielding the offset in seconds.
Following Go's general layout parser for `Z07:00`, the two-digit hour and
minute fields of a numeric offset are not range checked (`+99:99` is
accepted). -/
def parseZone (cs : List Char) : Option Int :=
  match cs with
  | ['Z'] => some 0
  | [sgn, h1, h2, colon, m1, m2] => do
      let hr ← parse2 h1 h2 0 99
      let mm ← parse2 m1 m2 0 99
      if colon = ':' then
        let off : Int := (hr * 60 + mm) * 60
        if sgn = '+' then some off
        else if sgn = '-' then some (-off)
        else none
      else none
  | _ => none

/-- Go's `getnum` with `fixed = false`, as the general layout parser uses
for the hour, combined with the hour range check: one digit, or two when
the second character is also a digit, with the value at most 23. -/
def parseHour : List Char → Option (Nat × List Char)
  | [] => none
  | [c1] => do
      let x ← digitVal c1
      if x ≤ 23 then some (x, ([] : List Char)) else none
  | c1 :: c2 :: rest => do
      let x ← digitVal c1
      match digitVal c2 with
      | some y => if x * 10 + y ≤ 23 then some (x * 10 + y, rest) else none
      | none => if x ≤ 23 then some (x, c2 :: rest) else none

/-- The optional fractional second after the seconds field: its
nanoseconds and the remaining input.  Go accepts a comma as well as a
point as the separator (`commaOrPeriod`). -/
def splitFrac (rest : List Char) : Nat × List Char :=
  match rest with
  | p :: c :: cs =>
    if (p = '.' ∨ p = ',') ∧ isDigitChar c then
      (fracNanos ((c :: cs).takeWhile isDigitChar), (c :: cs).dropWhile isDigitChar)
    else ((0 : Nat), rest)
  | _ => ((0 : Nat), rest)

/-- Model of `time.Parse(time.RFC3339, s)`: `some` of the parsed components,
or `none` exactly when Go's parse returns an error.  Go tries a strict
fast path and falls back to the general layout-driven parser; the union of
the two is the general parser's behavior, modelled here: four-digit year,
two-digit month 1..12, two-digit day valid for the month, a one- or
two-digit hour at most 23, two-digit minute and second at most 59, an
optional fractional second introduced by a point or a comma, and a zone
that is `Z` or `±hh:mm` with the offset digits unchecked. -/
def parseRFC3339 (s : String) : Option TimeStamp :=
  match s.data with
  | y1 :: y2 :: y3 :: y4 :: sep1 :: mo1 :: mo2 :: sep2 :: d1 :: d2 :: sepT :: rest =>
    if sep1 = '-' && sep2 = '-' && sepT = 'T' then do
      let year ← parse4 y1 y2 y3 y4 0 9999
      let month ← parse2 mo1 mo2 1 12
      let day ← parse2 d1 d2 1 (daysIn month year)
      let hr ← parseHour rest
      match hr.2 with
      | sep3 :: mi1 :: mi2 :: sep4 :: s1 :: s2 :: rest2 =>
        if sep3 = ':' && sep4 = ':' then do
          let minute ← parse2 mi1 mi2 0 59
          let second ← parse2 s1 s2 0 59
          let frac := splitFrac rest2
          let off ← parseZone frac.2
          some { year := year, month := month, day := day, hour := hr.1,
                 minute := minute, second := second, nanos := frac.1,
                 offsetSeconds := off }
        else none
      | _ => none
    else none
  | _ => none

/-- Days since the Unix epoch of a proleptic-Gregorian civil date
(the standard days-from-civil algorithm, as used by Go's absolute-time
conversion). -/
def daysFromCivil (y m d : Int) : Int :=
  let y2 := if m ≤ 2 then y - 1 else y
  let era := Int.fdiv y2 400
  let yoe := y2 - era * 400
  let mp := Int.emod (m + 9) 12
  let doy := Int.fdiv (153 * mp + 2) 5 + d - 1
  let doe := yoe * 365 + Int.fdiv yoe 4 - Int.fdiv yoe 100 + doy
  era * 146097 + doe - 719468

/-- Absolute instant of a timestamp in nanoseconds since the Unix epoch.
`time.Time.After` and `time.Time.Before` compare these instants. -/
def toInstant (t : TimeStamp) : Int :=
  (daysFromCivil (t.year : Int) (t.month : Int) (t.day : Int) * 86400
    + (t.hour : Int) * 3600 + (t.minute : Int) * 60 + (t.second : Int)
    - t.offsetSeconds) * 1000000000 + (t.nanos : Int)

/-! ## Meeting URL extraction (client.go)

The four regular expressions in `meetingPatterns` all have one of two
shapes: `https:// SUB* HOST TAIL+` (zoom, webex) or `LIT TAIL+` (meet,
teams), where `SUB`/`TAIL` are character classes.  They are modelled
concretely with RE2's leftmost-first, greedy matching: `FindString`
returns the match at the earliest starting position, the `*` takes the
longest run whose continuation still matches, and the `+` takes the
longest non-empty run. -/

/-- RE2's `\s` class: ASCII whitespace only. -/
def isSpaceRE2 (c : Char) : Bool :=
  c = '\t' || c = '\n' || c = '\x0c' || c = '\r' || c = ' '

/-- The class `[a-z0-9.-]` (subdomain characters). -/
def isHostChar (c : Char) : Bool :=
  ('a' ≤ c && c ≤ 'z') || ('0' ≤ c && c ≤ '9') || c = '.' || c = '-'

/-- The negated class `[^\s<>"]`. -/
def isURLTailChar (c : Char) : Bool :=
  !(isSpaceRE2 c || c = '<' || c = '>' || c = '\"')

/-- The class `[a-z0-9-]` (Google Meet codes). -/
def isMeetCodeChar (c : Char) : Bool :=
  ('a' ≤ c && c ≤ 'z') || ('0' ≤ c && c ≤ '9') || c = '-'

/-- The two shapes of the meeting URL regular expressions. -/
inductive MeetingPattern where
  | hostTail (sub : Char → Bool) (host : List Char) (tail : Char → Bool)
  | litTail (lit : List Char) (tail : Char → Bool)

def httpsLit : List Char := "https://".data

/-- Greedy backtracking for the `SUB* HOST TAIL+` part: try the subdomain
run length `k` downwards, succeeding at the largest `k` where `HOST` and a
non-empty `TAIL+` run follow. -/
def tryHost (host : List Char) (tail : Char → Bool) (r : List Char) (k : Nat) :
    Option Nat :=
  if host.isPrefixOf (r.drop k) && !((r.drop (k + host.length)).takeWhile tail).isEmpty then
    some k
  else
    match k with
    | 0 => none
    | Nat.succ k2 => tryHost host tail r k2

/-- Match `https:// SUB* HOST TAIL+` at the start of `cs`, returning the
matched prefix. -/
def matchHostTail (sub : Char → Bool) (host : List Char) (tail : Char → Bool)
    (cs : List Char) : Option (List Char) :=
  if httpsLit.isPrefixOf cs then
    let r := cs.drop httpsLit.length
    match tryHost host tail r (r.takeWhile sub).length with
    | some k =>
        some (httpsLit ++ r.take k ++ host ++ (r.drop (k + host.length)).takeWhile tail)
    | none => none
  else none

/-- Match `LIT TAIL+` at the start of `cs`, returning the matched prefix. -/
def matchLitTail (lit : List Char) (tail : Char → Bool) (cs : List Char) :
    Option (List Char) :=
  if lit.isPrefixOf cs then
    let run := (cs.drop lit.length).takeWhile tail
    if run.isEmpty then none else some (lit ++ run)
  else none

def matchPatternAt : MeetingPattern → List Char → Option (List Char)
  | .hostTail sub host tail, cs => matchHostTail sub host tail cs
  | .litTail lit tail, cs => matchLitTail lit tail cs

/-- Leftmost match: try each start position from the left. -/
def findStringAux (p : MeetingPattern) (cs : List Char) : Option (List Char) :=
  match matchPatternAt p cs with
  | some m => some m
  | none =>
    match cs with
    | [] => none
    | _ :: rest => findStringAux p rest

/-- Model of `regexp.FindString`: the leftmost match, or `""` if none. -/
def goFindString (p : MeetingPattern) (s : String) : String :=
  match findStringAux p s.data with
  | some m => String.mk m
  | none => ""

/-- `https://[a-z0-9.-]*zoom\.us/[^\s<>"]+` -/
def zoomPattern : MeetingPattern := .hostTail isHostChar "zoom.us/".data isURLTailChar

/-- `https://meet\.google\.com/[a-z0-9-]+` -/
def meetPattern : MeetingPattern := .litTail "https://meet.google.com/".data isMeetCodeChar

/-- `https://teams\.microsoft\.com/[^\s<>"]+` -/
def teamsPattern : MeetingPattern := .litTail "https://teams.microsoft.com/".data isURLTailChar

/-- `https://[a-z0-9.-]*webex\.com/[^\s<>"]+` -/
def webexPattern : MeetingPattern := .hostTail isHostChar "webex.com/".data isURLTailChar

/-- Meeting URL patterns (client.go), in the order they are tried. -/
def meetingPatterns : List MeetingPattern :=
  [zoomPattern, meetPattern, teamsPattern, webexPattern]

/-- `unicode.IsSpace`, as used by `strings.TrimSpace`. -/
def isGoSpace (c : Char) : Bool :=
  c = ' ' || c = '\t' || c = '\n' || c = '\x0b' || c = '\x0c' || c = '\r' ||
  c = '\x85' || c = '\xa0' || c = ' ' || (' ' ≤ c && c ≤ ' ') ||
  c = ' ' || c = ' ' || c = ' ' || c = ' ' || c = '　'

/-- Model of `strings.TrimSpace`. -/
def goTrimSpace (cs : List Char) : List Char :=
  ((cs.dropWhile isGoSpace).reverse.dropWhile isGoSpace).reverse

/-- The conference-data loop of `extractMeetingURL`: the URI of the first
entry point of type "video" with a non-empty URI. -/
def firstVideoUri : List EntryPoint → Option String
  | [] => none
  | ep :: rest =>
      if ep.EntryPointType = "video" && ep.Uri ≠ "" then some ep.Uri
      else firstVideoUri rest

def firstVideoEntryPoint : Option ConferenceData → Option String
  | none => none
  | some cd => firstVideoUri cd.EntryPoints

/-- The pattern-search loop of `extractMeetingURL`: first pattern with a
match wins, and the match is returned trimmed of surrounding whitespace. -/
def scanMeetingPatterns : List MeetingPattern → String → String
  | [], _ => ""
  | p :: ps, s =>
    let m := goFindString p s
    if m ≠ "" then String.mk (goTrimSpace m.data) else scanMeetingPatterns ps s

/-- extractMeetingURL finds a meeting URL from an event (client.go):
hangout link first, then conference data, then a pattern search over
description and location. -/
def extractMeetingURL (item : CalendarEvent) : String :=
  if item.HangoutLink ≠ "" then item.HangoutLink
  else
    match firstVideoEntryPoint item.ConferenceData with
    | some uri => uri
    | none =>
      let searchIn := item.Description ++ " " ++ item.Location
      scanMeetingPatterns meetingPatterns searchIn

/-! ## Event conversion (client.go) -/

def eventStatusCancelled : String := "cancelled"

def responseStatusAccepted : String := "accepted"

/-- One iteration of the attendee loop in `convertEvent`: a self-flagged
entry supplies the response status; any other entry with a non-empty
address is appended under its display name, the address replacing an empty
display name. -/
def attendeeStep (ev : Event) (attendee : EventAttendee) : Event :=
  if attendee.Self then
    { ev with ResponseStatus := attendee.ResponseStatus }
  else if attendee.Email ≠ "" then
    let names := ev.Attendees ++ [attendee.DisplayName]
    let names := if names.getLast? = some "" then names.dropLast ++ [attendee.Email] else names
    { ev with Attendees := names }
  else ev

/-- convertEvent converts a raw provider event to an `Event`, or discards
it (client.go): cancelled events, all-day events, events with no qualifying
attendees and events whose self response status is not "accepted" yield
`none`. -/
def convertEvent (item : CalendarEvent) : Option Event :=
  if item.Status = eventStatusCancelled then none
  else if item.Start.DateTime = "" then none
  else
    let event : Event :=
      { ID := item.Id, Title := item.Summary, Start := item.Start.DateTime,
        End := item.End.DateTime, Attendees := [], AttendeeCount := 0,
        MeetingURL := "", HasConflict := false, ResponseStatus := "" }
    let event := item.Attendees.foldl attendeeStep event
    let event := { event with AttendeeCount := event.Attendees.length }
    if event.AttendeeCount = 0 then none
    else if event.ResponseStatus ≠ responseStatusAccepted then none
    else some { event with MeetingURL := extractMeetingURL item }

/-! ## Conflict detection (client.go) -/

/-- Whether the conflict pass marks the pair `(e, f)`: all four timestamps
parse, `e` ends after `f` starts and `e` starts before `f` ends.  A parse
failure on any timestamp skips the pair (no mark). -/
def overlapMark (e f : Event) : Bool :=
  match parseRFC3339 e.Start, parseRFC3339 e.End,
        parseRFC3339 f.Start, parseRFC3339 f.End with
  | some startI, some endI, some startJ, some endJ =>
      decide (toInstant endI > toInstant startJ) &&
      decide (toInstant startI < toInstant endJ)
  | _, _, _, _ => false

def setConflict (e : Event) : Event := { e with HasConflict := true }

/-- The body of the inner loop of `detectConflicts` for indices `(i, j)`. -/
def markPair (events : Array Event) (i j : Nat) : Array Event :=
  if overlapMark events[i]! events[j]! then
    (events.modify i setConflict).modify j setConflict
  else events

theorem size_markPair (events : Array Event) (i j : Nat) :
    (markPair events i j).size = events.size := by
  unfold markPair
  split <;> simp

/-- The inner loop of `detectConflicts`: `for j := i + 1; j < len(events); j++`. -/
def innerLoop (events : Array Event) (i j : Nat) : Array Event :=
  if h : j < events.size then innerLoop (markPair events i j) i (j + 1) else events
termination_by events.size - j
decreasing_by simp only [size_markPair]; omega

/-- The outer loop of `detectConflicts`: `for i := range events`. -/
def outerLoop (events : Array Event) (i : Nat) : Array Event :=
  if h : i < events.size then outerLoop (innerLoop events i (i + 1)) (i + 1) else events
termination_by events.size - i
decreasing_by
  have : (innerLoop events i (i + 1)).size = events.size := by
    generalize i + 1 = j
    induction events, i, j using innerLoop.induct with
    | _ events i j =>
      unfold innerLoop
      split <;> simp_all [size_markPair]
  omega

/-- detectConflicts marks events that overlap with each other (client.go). -/
def detectConflicts (events : Array Event) : Array Event := outerLoop events 0

def detectConflictsList (events : List Event) : List Event :=
  (detectConflicts events.toArray).toList

/-! ## Fetching across calendars (client.go, FetchTodayEvents)

The authenticated transport and the per-calendar query are external
collaborators; the query is a parameter mapping a calendar id to either an
error message or the raw event items the provider returned for the day's
window. -/

/-- The stable sort of `FetchTodayEvents`:
`sort.SliceStable(allEvents, func(i, j) { Start[i] < Start[j] })`, which is
stable merge sort under the complementary ordering `Start[i] ≤ Start[j]`. -/
def sortEventsByStart (events : List Event) : List Event :=
  events.mergeSort (fun a b => decide (a.Start ≤ b.Start))

/-- The per-calendar loop, error collection, sort and conflict pass of
`FetchTodayEvents` (everything after the service is constructed and the
time window computed). -/
def fetchEventsFromCalendars (query : String → Except String (List CalendarEvent))
    (calendarIDs : List String) : Response :=
  let ids := if calendarIDs.isEmpty then ["primary"] else calendarIDs
  let res := ids.foldl
    (fun (acc : List Event × List String) calID =>
      match query calID with
      | .error e => (acc.1, acc.2 ++ ["calendar " ++ calID ++ ": " ++ e])
      | .ok items =>
        (items.foldl
          (fun evs item =>
            match convertEvent item with
            | some event => evs ++ [event]
            | none => evs) acc.1, acc.2))
    ([], [])
  if !res.2.isEmpty && res.1.isEmpty then
    NewErrorResponse ErrAPIError
      ("failed to fetch events: " ++ String.intercalate "; " res.2)
  else
    NewSuccessResponse (detectConflictsList (sortEventsByStart res.1))

/-! ## Characterization of the attendee loop -/

/-- The name under which an attendee is listed: display name, or the
address when the display name is empty. -/
def attendeeName (attendee : EventAttendee) : String :=
  if attendee.DisplayName = "" then attendee.Email else attendee.DisplayName

/-- The attendee list built by the conversion loop: every non-self entry
with a non-empty address, under `attendeeName`. -/
def qualifiedAttendees (atts : List EventAttendee) : List String :=
  atts.filterMap fun attendee =>
    if attendee.Self then none
    else if attendee.Email ≠ "" then some (attendeeName attendee) else none

/-- The response status after the conversion loop: the last self-flagged
entry's status, or the initial value if there is none. -/
def selfResponse (atts : List EventAttendee) (rs : String) : String :=
  atts.foldl (fun acc attendee => if attendee.Self then attendee.ResponseStatus else acc) rs

theorem attendeeStep_eq (ev : Event) (attendee : EventAttendee) :
    attendeeStep ev attendee =
      if attendee.Self then { ev with ResponseStatus := attendee.ResponseStatus }
      else if attendee.Email ≠ "" then
        { ev with Attendees := ev.Attendees ++ [attendeeName attendee] }
      else ev := by
  unfold attendeeStep attendeeName
  by_cases hs : attendee.Self
  · simp [hs]
  · by_cases he : attendee.Email = ""
    · simp [hs, he]
    · by_cases hd : attendee.DisplayName = "" <;>
        simp [hs, he, hd, List.getLast?_concat, List.dropLast_concat]

theorem foldl_attendeeStep (atts : List EventAttendee) (ev : Event) :
    atts.foldl attendeeStep ev =
      { ev with Attendees := ev.Attendees ++ qualifiedAttendees atts,
                ResponseStatus := selfResponse atts ev.ResponseStatus } := by
  induction atts generalizing ev with
  | nil => simp [qualifiedAttendees, selfResponse]
  | cons a atts ih =>
    rw [List.foldl_cons, attendeeStep_eq]
    by_cases hs : a.Self
    · simp only [hs, if_true, ih, qualifiedAttendees, selfResponse,
        List.filterMap_cons, List.foldl_cons, if_true]
    · by_cases he : a.Email = ""
      · simp [hs, he, ih, qualifiedAttendees, selfResponse]
      · simp [hs, he, ih, qualifiedAttendees, selfResponse]

/-- Full characterization of `convertEvent`: the four discard conditions in
order, else the normalized record. -/
theorem convertEvent_eq (item : CalendarEvent) :
    convertEvent item =
      if item.Status = eventStatusCancelled then none
      else if item.Start.DateTime = "" then none
      else if qualifiedAttendees item.Attendees = [] then none
      else if selfResponse item.Attendees "" ≠ responseStatusAccepted then none
      else some { ID := item.Id, Title := item.Summary, Start := item.Start.DateTime,
                  End := item.End.DateTime,
                  Attendees := qualifiedAttendees item.Attendees,
                  AttendeeCount := (qualifiedAttendees item.Attendees).length,
                  MeetingURL := extractMeetingURL item, HasConflict := false,
                  ResponseStatus := selfResponse item.Attendees "" } := by
  unfold convertEvent
  by_cases h1 : item.Status = eventStatusCancelled
  · simp [h1]
  · by_cases h2 : item.Start.DateTime = ""
    · simp [h1, h2]
    · simp only [h1, h2, if_false, foldl_attendeeStep, List.nil_append]
      by_cases h3 : qualifiedAttendees item.Attendees = []
      · simp [h3]
      · have h3' : (qualifiedAttendees item.Attendees).length ≠ 0 := by
          simpa using h3
        by_cases h4 : selfResponse item.Attendees "" = responseStatusAccepted <;>
          simp [h3, h3', h4]

/-! ## Claim C2: conversion discards -/

/-- Claim C2: for every raw provider event with status "cancelled", or with
no time-of-day start component, or whose extracted attendee list is empty,
or whose caller's own response status is not exactly "accepted", the
conversion step yields no output record. -/
theorem convertEvent_discards (item : CalendarEvent)
    (h : item.Status = eventStatusCancelled ∨ item.Start.DateTime = "" ∨
         qualifiedAttendees item.Attendees = [] ∨
         selfResponse item.Attendees "" ≠ responseStatusAccepted) :
    convertEvent item = none := by
  rw [convertEvent_eq]
  split_ifs with h1 h2 h3 h4
  any_goals rfl
  rcases h with h | h | h | h <;> simp_all

/-- A sample raw event that converts successfully: its mutations exercise
the discard conditions. -/
def sampleItem : CalendarEvent :=
  { Id := "e1", Summary := "standup", Status := "confirmed",
    Start := ⟨"2024-01-15T14:00:00Z", ""⟩, End := ⟨"2024-01-15T15:00:00Z", ""⟩,
    Attendees := [⟨true, "me@example.com", "Me", "accepted"⟩,
                  ⟨false, "no-name@example.com", "", "needsAction"⟩],
    HangoutLink := "", ConferenceData := none, Description := "", Location := "" }

theorem convertEvent_discards_witness :
    ({ sampleItem with Status := "cancelled" } : CalendarEvent).Status = eventStatusCancelled ∧
    convertEvent { sampleItem with Status := "cancelled" } = none :=
  ⟨by decide, convertEvent_discards { sampleItem with Status := "cancelled" }
    (Or.inl (by decide))⟩

/-! ## Claim C8: attendee extraction -/

/-- Claim C8: during conversion every non-self attendee entry with a
non-empty address is appended to the attendee list under its display name,
the address replacing an empty display name, and the resulting list length
equals the reported attendee count. -/
theorem convertEvent_attendee_list (item : CalendarEvent) (event : Event)
    (h : convertEvent item = some event) :
    event.Attendees = qualifiedAttendees item.Attendees ∧
    event.AttendeeCount = event.Attendees.length ∧
    (∀ attendee : EventAttendee, attendee.Self = false → attendee.Email ≠ "" →
      qualifiedAttendees (item.Attendees ++ [attendee]) =
        qualifiedAttendees item.Attendees ++
          [if attendee.DisplayName = "" then attendee.Email else attendee.DisplayName]) := by
  rw [convertEvent_eq] at h
  split_ifs at h with h1 h2 h3 h4
  cases h
  refine ⟨rfl, rfl, ?_⟩
  intro attendee hself hemail
  simp [qualifiedAttendees, attendeeName, hself, hemail]

/-- The converted record for `sampleItem`. -/
def sampleEvent : Event :=
  { ID := "e1", Title := "standup", Start := "2024-01-15T14:00:00Z",
    End := "2024-01-15T15:00:00Z", Attendees := ["no-name@example.com"],
    AttendeeCount := 1, MeetingURL := "", HasConflict := false,
    ResponseStatus := "accepted" }

theorem convertEvent_attendee_list_witness :
    convertEvent sampleItem = some sampleEvent ∧
    sampleEvent.Attendees = ["no-name@example.com"] ∧
    sampleEvent.AttendeeCount = sampleEvent.Attendees.length := by
  refine ⟨by decide, by decide, ?_⟩
  exact (convertEvent_attendee_list sampleItem sampleEvent (by decide)).2.1

/-! ## Claim C3: meeting URL extraction precedence -/

/-- The claim's selector for precedence step (2), following the claim's
words: the URI of the first conference-data entry point of type "video",
with no condition on that URI.  The code (`firstVideoUri`) additionally
skips entry points whose URI is empty. -/
def claimFirstVideoUri (eps : List EntryPoint) : Option String :=
  (eps.find? fun ep => ep.EntryPointType = "video").map fun ep => ep.Uri

/-- A raw event whose first (and only) zoom-pattern match ends in a
non-ASCII whitespace character: `strings.TrimSpace` strips it from the
returned value, so the returned URL is not the match itself. -/
def trimItem : CalendarEvent :=
  { Id := "", Summary := "", Status := "", Start := ⟨"", ""⟩, End := ⟨"", ""⟩,
    Attendees := [], HangoutLink := "", ConferenceData := none,
    Description := "https://zoom.us/j/1" ++ "\x85", Location := "" }

/-- A raw event whose first conference entry point of type "video" has an
empty URI: the code skips it and returns the second video entry point. -/
def videoItem : CalendarEvent :=
  { Id := "", Summary := "", Status := "", Start := ⟨"", ""⟩, End := ⟨"", ""⟩,
    Attendees := [], HangoutLink := "",
    ConferenceData := some ⟨[⟨"video", ""⟩, ⟨"video", "https://v.example/second"⟩]⟩,
    Description := "", Location := "" }

/-- Counterexample to claim C3 as stated.  First input: the first pattern
match over description and location is `https://zoom.us/j/1␅` (ending in
U+0085), but extraction returns it with the trailing whitespace trimmed,
so the match itself is not returned.  Second input: the URI of the first
conference entry point of type "video" is `""`, but extraction returns the
second video entry point's URI. -/
theorem extractMeetingURL_cex :
    (trimItem.HangoutLink = "" ∧ trimItem.ConferenceData = none ∧
     goFindString zoomPattern (trimItem.Description ++ " " ++ trimItem.Location) ≠ "" ∧
     extractMeetingURL trimItem ≠
       goFindString zoomPattern (trimItem.Description ++ " " ++ trimItem.Location)) ∧
    (videoItem.HangoutLink = "" ∧
     (videoItem.ConferenceData.map fun cd => claimFirstVideoUri cd.EntryPoints) =
       some (some "") ∧
     extractMeetingURL videoItem = "https://v.example/second") := by
  decide

/-- Claim C3 as amended: extraction precedence is (1) a non-empty hangout
link; else (2) the URI of the first conference entry point of type "video"
carrying a non-empty URI; else (3) the first pattern match over
description-space-location, patterns tried in order zoom, meet, teams,
webex, the match returned with surrounding whitespace trimmed; no match
yields the empty string. -/
theorem extractMeetingURL_precedence (item : CalendarEvent) :
    (item.HangoutLink ≠ "" → extractMeetingURL item = item.HangoutLink) ∧
    (∀ uri, item.HangoutLink = "" →
      firstVideoEntryPoint item.ConferenceData = some uri →
      extractMeetingURL item = uri) ∧
    (item.HangoutLink = "" → firstVideoEntryPoint item.ConferenceData = none →
      extractMeetingURL item =
        (let s := item.Description ++ " " ++ item.Location
         if goFindString zoomPattern s ≠ "" then
           String.mk (goTrimSpace (goFindString zoomPattern s).data)
         else if goFindString meetPattern s ≠ "" then
           String.mk (goTrimSpace (goFindString meetPattern s).data)
         else if goFindString teamsPattern s ≠ "" then
           String.mk (goTrimSpace (goFindString teamsPattern s).data)
         else if goFindString webexPattern s ≠ "" then
           String.mk (goTrimSpace (goFindString webexPattern s).data)
         else "")) ∧
    (∀ eps (ep : EntryPoint), firstVideoUri (ep :: eps) =
      if ep.EntryPointType = "video" && ep.Uri ≠ "" then some ep.Uri
      else firstVideoUri eps) := by
  refine ⟨?_, ?_, ?_, ?_⟩
  · intro h
    simp [extractMeetingURL, h]
  · intro uri h hv
    simp [extractMeetingURL, h, hv]
  · intro h hv
    simp only [extractMeetingURL, h, hv]
    simp only [ite_not, if_pos rfl, meetingPatterns, scanMeetingPatterns]
    rfl
  · intro eps ep
    rfl

/-- An event carrying both a direct video link and a matching description
URL: extraction yields the direct link (instance of precedence step 1). -/
def directLinkItem : CalendarEvent :=
  { Id := "", Summary := "", Status := "", Start := ⟨"", ""⟩, End := ⟨"", ""⟩,
    Attendees := [], HangoutLink := "https://meet.google.com/xyz-abcd-efg",
    ConferenceData := none,
    Description := "join at https://zoom.us/j/99999", Location := "" }

theorem extractMeetingURL_precedence_witness :
    directLinkItem.HangoutLink ≠ "" ∧
    goFindString zoomPattern
      (directLinkItem.Description ++ " " ++ directLinkItem.Location) ≠ "" ∧
    extractMeetingURL directLinkItem = directLinkItem.HangoutLink :=
  ⟨by decide, by decide,
    (extractMeetingURL_precedence directLinkItem).1 (by decide)⟩

/-! ## Claim C5: stable sort by start time -/

theorem startLE_trans (a b c : Event) :
    decide (a.Start ≤ b.Start) → decide (b.Start ≤ c.Start) →
    decide (a.Start ≤ c.Start) := by
  simp only [decide_eq_true_eq]
  exact le_trans

theorem startLE_total (a b : Event) :
    decide (a.Start ≤ b.Start) || decide (b.Start ≤ a.Start) := by
  simpa using le_total a.Start b.Start

/-- Claim C5: the merge-and-sort step orders events by start-time string
ascending with a stable sort: the output is sorted and a permutation of
the input, and any two input events with equal start times appearing in a
given relative order keep that order in the output. -/
theorem sortEventsByStart_stable (events : List Event) :
    (sortEventsByStart events).Pairwise (fun a b => a.Start ≤ b.Start) ∧
    (sortEventsByStart events).Perm events ∧
    ∀ a b, a.Start = b.Start → List.Sublist [a, b] events →
      List.Sublist [a, b] (sortEventsByStart events) := by
  refine ⟨?_, ?_, ?_⟩
  · exact (List.sorted_mergeSort startLE_trans startLE_total events).imp
      (by simp only [decide_eq_true_eq]; exact fun h => h)
  · exact List.mergeSort_perm events _
  · intro a b hab hsub
    exact List.pair_sublist_mergeSort startLE_trans startLE_total
      (by simp [hab]) hsub

def tiedEventA : Event :=
  { ID := "a", Title := "", Start := "2024-01-15T14:00:00Z",
    End := "2024-01-15T15:00:00Z", Attendees := [], AttendeeCount := 0,
    MeetingURL := "", HasConflict := false, ResponseStatus := "" }

def tiedEventB : Event :=
  { ID := "b", Title := "", Start := "2024-01-15T14:00:00Z",
    End := "2024-01-15T14:30:00Z", Attendees := [], AttendeeCount := 0,
    MeetingURL := "", HasConflict := false, ResponseStatus := "" }

theorem sortEventsByStart_stable_witness :
    tiedEventA.Start = tiedEventB.Start ∧
    List.Sublist [tiedEventA, tiedEventB] (sortEventsByStart [tiedEventA, tiedEventB]) :=
  ⟨rfl, (sortEventsByStart_stable [tiedEventA, tiedEventB]).2.2 tiedEventA tiedEventB rfl
    (List.Sublist.refl _)⟩

/-! ## Claim C4: per-calendar error aggregation -/

/-- The calendar-id list actually queried: defaults to the primary
calendar when empty. -/
def effectiveCalendarIDs (calendarIDs : List String) : List String :=
  if calendarIDs.isEmpty then ["primary"] else calendarIDs

/-- The per-calendar error messages collected by the fetch loop. -/
def calendarFetchErrors (query : String → Except String (List CalendarEvent))
    (ids : List String) : List String :=
  ids.filterMap fun calID =>
    match query calID with
    | .error e => some ("calendar " ++ calID ++ ": " ++ e)
    | .ok _ => none

/-- The converted events accumulated by the fetch loop, in discovery
order: calendar order, then provider-returned order. -/
def convertedEventsOf (query : String → Except String (List CalendarEvent))
    (ids : List String) : List Event :=
  ids.flatMap fun calID =>
    match query calID with
    | .error _ => []
    | .ok items => items.filterMap convertEvent

theorem foldl_convert_append (items : List CalendarEvent) (evs : List Event) :
    items.foldl
      (fun evs item =>
        match convertEvent item with
        | some event => evs ++ [event]
        | none => evs) evs = evs ++ items.filterMap convertEvent := by
  induction items generalizing evs with
  | nil => simp
  | cons item items ih =>
    simp only [List.foldl_cons, List.filterMap_cons]
    cases h : convertEvent item <;> simp [h, ih]

theorem foldl_fetch_append (query : String → Except String (List CalendarEvent))
    (ids : List String) (evs : List Event) (errs : List String) :
    ids.foldl
      (fun (acc : List Event × List String) calID =>
        match query calID with
        | .error e => (acc.1, acc.2 ++ ["calendar " ++ calID ++ ": " ++ e])
        | .ok items =>
          (items.foldl
            (fun evs item =>
              match convertEvent item with
              | some event => evs ++ [event]
              | none => evs) acc.1, acc.2))
      (evs, errs) =
      (evs ++ convertedEventsOf query ids, errs ++ calendarFetchErrors query ids) := by
  induction ids generalizing evs errs with
  | nil => simp [convertedEventsOf, calendarFetchErrors]
  | cons calID ids ih =>
    simp only [List.foldl_cons]
    cases h : query calID with
    | error e =>
      simp only [h]
      rw [ih]
      simp [h, convertedEventsOf, calendarFetchErrors,
        List.filterMap_cons, List.flatMap_cons]
    | ok items =>
      simp only [h]
      rw [foldl_convert_append, ih]
      simp [h, convertedEventsOf, calendarFetchErrors,
        List.filterMap_cons, List.flatMap_cons]

/-- Counterexample to claim C4 as stated: the calendar "good" succeeds
(returning an empty item list) while "bad" fails, yet the call returns an
APIError response rather than a success with partial results, because no
events at all were converted. -/
def partialQuery : String → Except String (List CalendarEvent) :=
  fun calID => if calID = "good" then .ok [] else .error "boom"

theorem fetchEvents_cex :
    partialQuery "good" = .ok [] ∧
    fetchEventsFromCalendars partialQuery ["good", "bad"] =
      NewErrorResponse ErrAPIError "failed to fetch events: calendar bad: boom" ∧
    (fetchEventsFromCalendars partialQuery ["good", "bad"]).Success = false := by
  refine ⟨rfl, by decide, by decide⟩

/-- Claim C4 as amended: per-calendar failures are collected without
aborting the loop; the call returns an APIError aggregating all
per-calendar messages iff at least one calendar failed and no events at
all were converted; otherwise it returns a success carrying the events
converted from the succeeding calendars, sorted, with conflicts marked. -/
theorem fetchEvents_characterization
    (query : String → Except String (List CalendarEvent)) (calendarIDs : List String) :
    fetchEventsFromCalendars query calendarIDs =
      if calendarFetchErrors query (effectiveCalendarIDs calendarIDs) ≠ [] ∧
         convertedEventsOf query (effectiveCalendarIDs calendarIDs) = [] then
        NewErrorResponse ErrAPIError
          ("failed to fetch events: " ++ String.intercalate "; "
            (calendarFetchErrors query (effectiveCalendarIDs calendarIDs)))
      else
        NewSuccessResponse (detectConflictsList (sortEventsByStart
          (convertedEventsOf query (effectiveCalendarIDs calendarIDs)))) := by
  unfold fetchEventsFromCalendars effectiveCalendarIDs
  simp only [foldl_fetch_append, List.nil_append]
  by_cases he : calendarFetchErrors query
      (if calendarIDs.isEmpty then ["primary"] else calendarIDs) = [] <;>
    by_cases hv : convertedEventsOf query
      (if calendarIDs.isEmpty then ["primary"] else calendarIDs) = [] <;>
    simp [he, hv]

/-! ## Characterization of the conflict pass -/

theorem size_innerLoop (events : Array Event) (i j : Nat) :
    (innerLoop events i j).size = events.size := by
  induction events, i, j using innerLoop.induct with
  | case1 events i j h ih =>
    unfold innerLoop
    rw [dif_pos h, ih, size_markPair]
  | case2 events i j h =>
    unfold innerLoop
    rw [dif_neg h]

theorem size_outerLoop (events : Array Event) (i : Nat) :
    (outerLoop events i).size = events.size := by
  induction events, i using outerLoop.induct with
  | case1 events i h ih =>
    unfold outerLoop
    rw [dif_pos h, ih, size_innerLoop]
  | case2 events i h =>
    unfold outerLoop
    rw [dif_neg h]

theorem size_detectConflicts (events : Array Event) :
    (detectConflicts events).size = events.size :=
  size_outerLoop events 0

theorem arrayGetBang (a : Array Event) (k : Nat) :
    a[k]! = if h : k < a.size then a[k] else default := by
  split
  · exact getElem!_pos a k (by assumption)
  · exact getElem!_neg a k (by assumption)

theorem getElem_bang_markPair (events : Array Event) (i j k : Nat)
    (hi : i < events.size) (hj : j < events.size) :
    (markPair events i j)[k]! =
      if overlapMark events[i]! events[j]! && (k == i || k == j) then
        setConflict events[k]!
      else events[k]! := by
  unfold markPair
  by_cases ho : overlapMark events[i]! events[j]!
  · rw [if_pos ho]
    by_cases hk : k < events.size
    · have hz : k < ((events.modify i setConflict).modify j setConflict).size := by
        simpa using hk
      rw [arrayGetBang _ k, dif_pos hz, arrayGetBang events k, dif_pos hk,
        Array.getElem_modify, Array.getElem_modify]
      by_cases hki : i = k <;> by_cases hkj : j = k
      · subst hki; subst hkj
        simp [ho, setConflict]
      · subst hki
        simp [ho, hkj, setConflict]
      · subst hkj
        simp [ho, hki, setConflict]
      · have h1 : (k == i) = false := by simp; omega
        have h2 : (k == j) = false := by simp; omega
        simp [hki, hkj, h1, h2]
    · have hz : ¬ k < ((events.modify i setConflict).modify j setConflict).size := by
        simpa using hk
      rw [arrayGetBang _ k, dif_neg hz, arrayGetBang events k, dif_neg hk]
      have hki : (k == i) = false := by simp; omega
      have hkj : (k == j) = false := by simp; omega
      simp [hki, hkj]
  · rw [if_neg ho]
    simp [ho]

theorem start_markPair (events : Array Event) (i j k : Nat)
    (hi : i < events.size) (hj : j < events.size) :
    ((markPair events i j)[k]!).Start = (events[k]!).Start ∧
    ((markPair events i j)[k]!).End = (events[k]!).End := by
  rw [getElem_bang_markPair events i j k hi hj]
  split <;> simp [setConflict]

theorem overlapMark_eq_of {e e' f f' : Event}
    (h1 : e.Start = e'.Start) (h2 : e.End = e'.End)
    (h3 : f.Start = f'.Start) (h4 : f.End = f'.End) :
    overlapMark e f = overlapMark e' f' := by
  unfold overlapMark
  rw [h1, h2, h3, h4]

/-- The marks contributed to index `k` by the inner loop at outer index
`i`, starting from inner index `j`. -/
def innerMarks (events : Array Event) (i j k : Nat) : Bool :=
  (List.range events.size).any fun j2 =>
    decide (j ≤ j2) && (k == i || k == j2) && overlapMark events[i]! events[j2]!

/-- The marks contributed to index `k` by the outer loop from index `i`. -/
def outerMarks (events : Array Event) (i k : Nat) : Bool :=
  (List.range events.size).any fun i2 =>
    decide (i ≤ i2) && innerMarks events i2 (i2 + 1) k

/-- Whether the conflict pass marks index `k`: some ordered pair `(i, j)`,
`i < j`, touches `k` and overlaps. -/
def marksAt (events : Array Event) (k : Nat) : Bool := outerMarks events 0 k

theorem list_any_congr {α : Type} {l : List α} {f g : α → Bool}
    (h : ∀ x ∈ l, f x = g x) : l.any f = l.any g := by
  induction l with
  | nil => rfl
  | cons x l ih =>
    simp only [List.any_cons, h x (by simp)]
    rw [ih fun y hy => h y (by simp [hy])]

/-- Arrays with pointwise equal sizes, start and end times produce the same
pair marks. -/
theorem innerMarks_congr {a b : Array Event} (hsize : a.size = b.size)
    (hpt : ∀ k : Nat, (a[k]!).Start = (b[k]!).Start ∧ (a[k]!).End = (b[k]!).End)
    (i j k : Nat) : innerMarks a i j k = innerMarks b i j k := by
  unfold innerMarks
  rw [hsize]
  apply list_any_congr
  intro j2 _
  rw [overlapMark_eq_of (hpt i).1 (hpt i).2 (hpt j2).1 (hpt j2).2]

theorem outerMarks_congr {a b : Array Event} (hsize : a.size = b.size)
    (hpt : ∀ k : Nat, (a[k]!).Start = (b[k]!).Start ∧ (a[k]!).End = (b[k]!).End)
    (i k : Nat) : outerMarks a i k = outerMarks b i k := by
  unfold outerMarks
  rw [hsize]
  apply list_any_congr
  intro i2 _
  rw [innerMarks_congr hsize hpt]

theorem innerMarks_of_ge (events : Array Event) (i j k : Nat)
    (h : events.size ≤ j) : innerMarks events i j k = false := by
  unfold innerMarks
  rw [List.any_eq_false]
  intro j2 hj2
  rw [List.mem_range] at hj2
  have : decide (j ≤ j2) = false := by simp; omega
  simp [this]

theorem innerMarks_succ (events : Array Event) (i j k : Nat)
    (hj : j < events.size) :
    innerMarks events i j k =
      ((overlapMark events[i]! events[j]! && (k == i || k == j)) ||
        innerMarks events i (j + 1) k) := by
  rw [Bool.eq_iff_iff]
  simp only [innerMarks, List.any_eq_true, List.mem_range, Bool.and_eq_true,
    Bool.or_eq_true, decide_eq_true_eq]
  constructor
  · rintro ⟨j2, hj2, ⟨hle, hcond⟩, hov⟩
    rcases Nat.eq_or_lt_of_le hle with rfl | hlt
    · exact Or.inl ⟨hov, hcond⟩
    · exact Or.inr ⟨j2, hj2, ⟨hlt, hcond⟩, hov⟩
  · rintro (⟨hov, hcond⟩ | ⟨j2, hj2, ⟨hle, hcond⟩, hov⟩)
    · exact ⟨j, hj, ⟨Nat.le_refl j, hcond⟩, hov⟩
    · exact ⟨j2, hj2, ⟨Nat.le_of_succ_le hle, hcond⟩, hov⟩

theorem outerMarks_of_ge (events : Array Event) (i k : Nat)
    (h : events.size ≤ i) : outerMarks events i k = false := by
  unfold outerMarks
  rw [List.any_eq_false]
  intro i2 hi2
  rw [List.mem_range] at hi2
  have : decide (i ≤ i2) = false := by simp; omega
  simp [this]

theorem outerMarks_succ (events : Array Event) (i k : Nat)
    (hi : i < events.size) :
    outerMarks events i k =
      (innerMarks events i (i + 1) k || outerMarks events (i + 1) k) := by
  rw [Bool.eq_iff_iff]
  simp only [outerMarks, List.any_eq_true, List.mem_range, Bool.and_eq_true,
    Bool.or_eq_true, decide_eq_true_eq]
  constructor
  · rintro ⟨i2, hi2, hle, hmk⟩
    rcases Nat.eq_or_lt_of_le hle with rfl | hlt
    · exact Or.inl hmk
    · exact Or.inr ⟨i2, hi2, hlt, hmk⟩
  · rintro (hmk | ⟨i2, hi2, hle, hmk⟩)
    · exact ⟨i, hi, Nat.le_refl i, hmk⟩
    · exact ⟨i2, hi2, Nat.le_of_succ_le hle, hmk⟩

theorem getElem_bang_innerLoop :
    ∀ (events : Array Event) (i j : Nat), i < events.size → ∀ k : Nat,
    (innerLoop events i j)[k]! =
      { events[k]! with
        HasConflict := (events[k]!).HasConflict || innerMarks events i j k } := by
  intro events i j
  induction events, i, j using innerLoop.induct with
  | case1 events i j h ih =>
    intro hi k
    unfold innerLoop
    rw [dif_pos h]
    have hi2 : i < (markPair events i j).size := by rw [size_markPair]; exact hi
    rw [ih hi2 k,
      innerMarks_congr (size_markPair events i j)
        (fun k2 => start_markPair events i j k2 hi h),
      getElem_bang_markPair events i j k hi h,
      innerMarks_succ events i j k h]
    by_cases hc : overlapMark events[i]! events[j]! && (k == i || k == j)
    · rw [if_pos hc]
      simp [setConflict, hc]
    · rw [if_neg hc]
      rw [Bool.not_eq_true] at hc
      rw [hc]
      simp
  | case2 events i j h =>
    intro hi k
    unfold innerLoop
    rw [dif_neg h, innerMarks_of_ge events i j k (by omega)]
    simp
theorem getElem_bang_outerLoop :
    ∀ (events : Array Event) (i : Nat), ∀ k : Nat,
    (outerLoop events i)[k]! =
      { events[k]! with
        HasConflict := (events[k]!).HasConflict || outerMarks events i k } := by
  intro events i
  induction events, i using outerLoop.induct with
  | case1 events i h ih =>
    intro k
    unfold outerLoop
    rw [dif_pos h, ih k]
    have hpt : ∀ k2 : Nat,
        ((innerLoop events i (i + 1))[k2]!).Start = (events[k2]!).Start ∧
        ((innerLoop events i (i + 1))[k2]!).End = (events[k2]!).End := by
      intro k2
      rw [getElem_bang_innerLoop events i (i + 1) h k2]
      exact ⟨rfl, rfl⟩
    rw [outerMarks_congr (size_innerLoop events i (i + 1)) hpt,
      getElem_bang_innerLoop events i (i + 1) h k,
      outerMarks_succ events i k h]
    simp [Bool.or_assoc]
  | case2 events i h =>
    intro k
    unfold outerLoop
    rw [dif_neg h, outerMarks_of_ge events i k (by omega)]
    simp

theorem getElem_bang_detectConflicts (events : Array Event) (k : Nat) :
    (detectConflicts events)[k]! =
      { events[k]! with
        HasConflict := (events[k]!).HasConflict || marksAt events k } :=
  getElem_bang_outerLoop events 0 k

theorem overlapMark_comm (e g : Event) : overlapMark e g = overlapMark g e := by
  unfold overlapMark
  cases h1 : parseRFC3339 e.Start <;> cases h2 : parseRFC3339 e.End <;>
    cases h3 : parseRFC3339 g.Start <;> cases h4 : parseRFC3339 g.End <;>
    simp [gt_iff_lt, Bool.and_comm]

theorem overlapMark_none_false (e g : Event)
    (h : parseRFC3339 e.Start = none ∨ parseRFC3339 e.End = none ∨
         parseRFC3339 g.Start = none ∨ parseRFC3339 g.End = none) :
    overlapMark e g = false := by
  unfold overlapMark
  cases h1 : parseRFC3339 e.Start <;> cases h2 : parseRFC3339 e.End <;>
    cases h3 : parseRFC3339 g.Start <;> cases h4 : parseRFC3339 g.End <;>
    simp_all

theorem overlapMark_some_iff (e g : Event) (se te sg tg : TimeStamp)
    (h1 : parseRFC3339 e.Start = some se) (h2 : parseRFC3339 e.End = some te)
    (h3 : parseRFC3339 g.Start = some sg) (h4 : parseRFC3339 g.End = some tg) :
    (overlapMark e g = true ↔
      toInstant te > toInstant sg ∧ toInstant se < toInstant tg) := by
  unfold overlapMark
  rw [h1, h2, h3, h4]
  simp

theorem overlapMark_touch (e g : Event) (te sg : TimeStamp)
    (h2 : parseRFC3339 e.End = some te) (h3 : parseRFC3339 g.Start = some sg)
    (heq : toInstant te = toInstant sg) :
    overlapMark e g = false ∧ overlapMark g e = false := by
  constructor
  · unfold overlapMark
    rw [h2, h3]
    cases h1 : parseRFC3339 e.Start <;> cases h4 : parseRFC3339 g.End <;>
      simp [heq]
  · unfold overlapMark
    rw [h2, h3]
    cases h1 : parseRFC3339 g.End <;> cases h4 : parseRFC3339 e.Start <;>
      simp [heq]

/-! ## Claim C1: conflicts iff open-interval overlap -/

/-- Claim C1: over a merged set of normalized events whose flags start out
clear and whose timestamps all parse, the conflict pass sets the flag of an
event iff some other event of the set overlaps it; the pair-marking
relation is symmetric; on parsed timestamps it is exactly the open-interval
test `A.end > B.start AND A.start < B.end`, so back-to-back events whose
shared endpoint denotes the same instant are never a conflict. -/
theorem detectConflicts_conflict_iff (events : Array Event)
    (hflag : ∀ k : Nat, k < events.size → (events[k]!).HasConflict = false)
    (hparse : ∀ k : Nat, k < events.size →
      (parseRFC3339 (events[k]!).Start).isSome ∧
      (parseRFC3339 (events[k]!).End).isSome) :
    (∀ k : Nat, k < events.size →
      (((detectConflicts events)[k]!).HasConflict = true ↔
        ∃ b : Nat, b < events.size ∧ b ≠ k ∧
          overlapMark events[k]! events[b]! = true)) ∧
    (∀ e g : Event, overlapMark e g = overlapMark g e) ∧
    (∀ (e g : Event) (se te sg tg : TimeStamp),
      parseRFC3339 e.Start = some se → parseRFC3339 e.End = some te →
      parseRFC3339 g.Start = some sg → parseRFC3339 g.End = some tg →
      (overlapMark e g = true ↔
        toInstant te > toInstant sg ∧ toInstant se < toInstant tg)) ∧
    (∀ (e g : Event) (te sg : TimeStamp),
      parseRFC3339 e.End = some te → parseRFC3339 g.Start = some sg →
      toInstant te = toInstant sg →
      overlapMark e g = false ∧ overlapMark g e = false) := by
  refine ⟨?_, overlapMark_comm, overlapMark_some_iff, overlapMark_touch⟩
  intro k hk
  rw [getElem_bang_detectConflicts]
  simp only [hflag k hk, Bool.false_or]
  simp only [marksAt, outerMarks, innerMarks, List.any_eq_true, List.mem_range,
    Bool.and_eq_true, Bool.or_eq_true, decide_eq_true_eq, beq_iff_eq]
  constructor
  · rintro ⟨i2, hi2, -, j2, hj2, ⟨hij, hcond⟩, hov⟩
    rcases hcond with rfl | rfl
    · exact ⟨j2, hj2, by omega, hov⟩
    · refine ⟨i2, hi2, by omega, ?_⟩
      rw [overlapMark_comm]
      exact hov
  · rintro ⟨b, hb, hne, hov⟩
    rcases Nat.lt_or_ge k b with hlt | hge
    · exact ⟨k, hk, by omega, b, hb, ⟨by omega, Or.inl rfl⟩, hov⟩
    · refine ⟨b, hb, by omega, k, hk, ⟨by omega, Or.inr rfl⟩, ?_⟩
      rw [overlapMark_comm]
      exact hov

def overlapEventA : Event :=
  { ID := "a", Title := "", Start := "2024-01-15T14:00:00Z",
    End := "2024-01-15T15:00:00Z", Attendees := [], AttendeeCount := 0,
    MeetingURL := "", HasConflict := false, ResponseStatus := "" }

def overlapEventB : Event :=
  { ID := "b", Title := "", Start := "2024-01-15T14:30:00Z",
    End := "2024-01-15T15:30:00Z", Attendees := [], AttendeeCount := 0,
    MeetingURL := "", HasConflict := false, ResponseStatus := "" }

def touchEventA : Event :=
  { ID := "ta", Title := "", Start := "2024-01-15T14:00:00Z",
    End := "2024-01-15T15:00:00Z", Attendees := [], AttendeeCount := 0,
    MeetingURL := "", HasConflict := false, ResponseStatus := "" }

def touchEventB : Event :=
  { ID := "tb", Title := "", Start := "2024-01-15T15:00:00Z",
    End := "2024-01-15T16:00:00Z", Attendees := [], AttendeeCount := 0,
    MeetingURL := "", HasConflict := false, ResponseStatus := "" }

def ts1500 : TimeStamp :=
  { year := 2024, month := 1, day := 15, hour := 15, minute := 0, second := 0,
    nanos := 0, offsetSeconds := 0 }

theorem detectConflicts_conflict_iff_witness :
    ((detectConflicts #[overlapEventA, overlapEventB])[0]!).HasConflict = true ∧
    ((detectConflicts #[overlapEventA, overlapEventB])[1]!).HasConflict = true ∧
    overlapMark touchEventA touchEventB = false ∧
    overlapMark touchEventB touchEventA = false := by
  have h := detectConflicts_conflict_iff #[overlapEventA, overlapEventB]
    (by decide) (by decide)
  have ht := h.2.2.2 touchEventA touchEventB ts1500 ts1500
    (by decide) (by decide) rfl
  exact ⟨(h.1 0 (by decide)).mpr ⟨1, by decide, by decide, by decide⟩,
         (h.1 1 (by decide)).mpr ⟨0, by decide, by decide, by decide⟩,
         ht.1, ht.2⟩

/-! ## Claim C7: malformed timestamps skip the pair only -/

/-- Claim C7: a pair with any unparseable start or end timestamp is
skipped without marking either member (its pair mark is false in both
orders), and the pass still runs to completion over all remaining pairs:
every entry of the output is exactly the input entry with its flag
augmented by the marks of the scanned pairs (in particular, no panic and
no abort). -/
theorem detectConflicts_skips_unparsed (events : Array Event) (e g : Event)
    (h : parseRFC3339 e.Start = none ∨ parseRFC3339 e.End = none ∨
         parseRFC3339 g.Start = none ∨ parseRFC3339 g.End = none) :
    overlapMark e g = false ∧ overlapMark g e = false ∧
    ∀ k : Nat, (detectConflicts events)[k]! =
      { events[k]! with
        HasConflict := (events[k]!).HasConflict || marksAt events k } := by
  refine ⟨overlapMark_none_false e g h, overlapMark_none_false g e ?_,
    fun k => getElem_bang_detectConflicts events k⟩
  tauto

def malformedEvent : Event :=
  { ID := "bad", Title := "", Start := "not-a-timestamp",
    End := "2024-01-15T15:00:00Z", Attendees := [], AttendeeCount := 0,
    MeetingURL := "", HasConflict := false, ResponseStatus := "" }

theorem detectConflicts_skips_unparsed_witness :
    parseRFC3339 malformedEvent.Start = none ∧
    overlapMark malformedEvent overlapEventB = false ∧
    overlapMark overlapEventB malformedEvent = false ∧
    ((detectConflicts #[malformedEvent, overlapEventB])[0]!).HasConflict = false ∧
    ((detectConflicts #[malformedEvent, overlapEventB])[1]!).HasConflict = false := by
  have h := detectConflicts_skips_unparsed #[malformedEvent, overlapEventB]
    malformedEvent overlapEventB (Or.inl (by decide))
  refine ⟨by decide, h.1, h.2.1, ?_, ?_⟩
  · rw [h.2.2 0]
    decide
  · rw [h.2.2 1]
    decide

/-! ## Claim C10: the conflict flag is monotone -/

/-- Claim C10: the conflict pass only ever sets the flag (a set flag stays
set), an event none of whose scanned pairs marks it keeps its prior flag
value, and conversion always produces events with the flag clear. -/
theorem detectConflicts_monotone (events : Array Event) (k : Nat) :
    ((events[k]!).HasConflict = true →
      ((detectConflicts events)[k]!).HasConflict = true) ∧
    (marksAt events k = false →
      ((detectConflicts events)[k]!).HasConflict = (events[k]!).HasConflict) ∧
    (∀ (item : CalendarEvent) (event : Event), convertEvent item = some event →
      event.HasConflict = false) := by
  refine ⟨?_, ?_, ?_⟩
  · intro h
    rw [getElem_bang_detectConflicts]
    simp [h]
  · intro h
    rw [getElem_bang_detectConflicts]
    simp [h]
  · intro item event h
    rw [convertEvent_eq] at h
    split_ifs at h
    cases h
    rfl

def preFlaggedEvent : Event :=
  { ID := "pf", Title := "", Start := "2024-01-15T09:00:00Z",
    End := "2024-01-15T10:00:00Z", Attendees := [], AttendeeCount := 0,
    MeetingURL := "", HasConflict := true, ResponseStatus := "" }

theorem detectConflicts_monotone_witness :
    ((detectConflicts #[preFlaggedEvent])[0]!).HasConflict = true ∧
    convertEvent sampleItem = some sampleEvent ∧ sampleEvent.HasConflict = false := by
  refine ⟨(detectConflicts_monotone #[preFlaggedEvent] 0).1 (by decide),
    by decide, (detectConflicts_monotone #[preFlaggedEvent] 0).2.2 sampleItem
      sampleEvent (by decide)⟩

/-! ## Persisted records and their JSON form (types.go, oauth.go)

`SaveToken` serializes a `TokenStore` with `json.MarshalIndent(store, "",
"  ")` and `LoadToken` / `LoadCredentials` decode with `json.Unmarshal`.
The encoder is modelled concretely: Go's string escaping (HTML-safe mode)
and `time.Time`'s RFC3339Nano JSON form.  The decoder is modelled for the
flat object shapes these records use (string-valued fields, keys in the
serialization order), which is the shape the encoder produces. -/

def lbrace : Char := Char.ofNat 123

def rbrace : Char := Char.ofNat 125

def hexDigitChar (n : Nat) : Char :=
  if n < 10 then Char.ofNat (48 + n) else Char.ofNat (87 + n)

/-- encoding/json's escaping of one character inside a string literal
(HTML-safe mode, as used by `json.Marshal`). -/
def escapeChar (c : Char) : List Char :=
  if c = '\"' then ['\\', '\"']
  else if c = '\\' then ['\\', '\\']
  else if c = '\n' then ['\\', 'n']
  else if c = '\r' then ['\\', 'r']
  else if c = '\t' then ['\\', 't']
  else if c.toNat < 32 ∨ c = '<' ∨ c = '>' ∨ c = '&' then
    ['\\', 'u', '0', '0', hexDigitChar (c.toNat / 16), hexDigitChar (c.toNat % 16)]
  else if c = ' ' ∨ c = ' ' then
    ['\\', 'u', '2', '0', '2', hexDigitChar (c.toNat % 16)]
  else [c]

def escapeString (cs : List Char) : List Char := (cs.map escapeChar).flatten

def quoteJSON (s : String) : List Char := '\"' :: escapeString s.data ++ ['\"']

def parseHexDigit (c : Char) : Option Nat :=
  if '0' ≤ c && c ≤ '9' then some (c.toNat - 48)
  else if 'a' ≤ c && c ≤ 'f' then some (c.toNat - 87)
  else if 'A' ≤ c && c ≤ 'F' then some (c.toNat - 55)
  else none

/-- The single-character JSON escapes. -/
def unescapeChar (e : Char) : Option Char :=
  if e = '\"' then some '\"'
  else if e = '\\' then some '\\'
  else if e = '/' then some '/'
  else if e = 'n' then some '\n'
  else if e = 'r' then some '\r'
  else if e = 't' then some '\t'
  else if e = 'b' then some '\x08'
  else if e = 'f' then some '\x0c'
  else none

/-- Parse the body of a JSON string literal up to and including its
closing quote, returning the decoded content and the remaining input
(surrogate-pair recombination is irrelevant to the escapes the encoder
emits and is not modelled). -/
def parseJSONString : List Char → Option (List Char × List Char)
  | [] => none
  | c :: rest =>
    if c = '\"' then some ([], rest)
    else if c = '\\' then
      match rest with
      | [] => none
      | e :: rest2 =>
        if e = 'u' then
          match rest2 with
          | h1 :: h2 :: h3 :: h4 :: rest3 => do
            let a ← parseHexDigit h1
            let b ← parseHexDigit h2
            let c2 ← parseHexDigit h3
            let d ← parseHexDigit h4
            let (content, fin) ← parseJSONString rest3
            some (Char.ofNat (((a * 16 + b) * 16 + c2) * 16 + d) :: content, fin)
          | _ => none
        else do
          let ch ← unescapeChar e
          let (content, fin) ← parseJSONString rest2
          some (ch :: content, fin)
    else do
      let (content, fin) ← parseJSONString rest
      some (c :: content, fin)

/-- JSON insignificant whitespace. -/
def jsonWS (c : Char) : Bool := c = ' ' || c = '\t' || c = '\n' || c = '\r'

def skipWS (cs : List Char) : List Char := cs.dropWhile jsonWS

def expectLit (lit cs : List Char) : Option (List Char) :=
  if lit.isPrefixOf cs then some (cs.drop lit.length) else none

/-- Parse one `"name": "value"` member, returning the decoded value and
the remaining input. -/
def parseField (name : String) (cs : List Char) : Option (List Char × List Char) := do
  let cs1 ← expectLit ('\"' :: name.data ++ ['\"']) (skipWS cs)
  let cs2 ← expectLit [':'] (skipWS cs1)
  let cs3 ← expectLit ['\"'] (skipWS cs2)
  parseJSONString cs3

/-! ## Time formatting (RFC3339Nano, as `time.Time.MarshalJSON` emits) -/

/-- `width` decimal digits of `n`, zero padded, most significant first. -/
def natDigitsPad : Nat → Nat → List Char
  | 0, _ => []
  | w + 1, n => natDigitsPad w (n / 10) ++ [Char.ofNat (48 + n % 10)]

def stripTrailingZeros (l : List Char) : List Char :=
  (l.reverse.dropWhile (fun c => c = '0')).reverse

/-- The fractional-second part of RFC3339Nano: empty for zero nanoseconds,
else a point followed by nine digits with trailing zeros removed. -/
def fracPart (nanos : Nat) : List Char :=
  if nanos = 0 then []
  else '.' :: stripTrailingZeros (natDigitsPad 9 nanos)

/-- The zone part: `Z` for UTC, else `±hh:mm`. -/
def zonePart (offsetSeconds : Int) : List Char :=
  if offsetSeconds = 0 then ['Z']
  else
    let sign := if offsetSeconds < 0 then '-' else '+'
    let minutes := offsetSeconds.natAbs / 60
    sign :: natDigitsPad 2 (minutes / 60) ++ ':' :: natDigitsPad 2 (minutes % 60)

/-- `time.Time.Format(time.RFC3339Nano)` on the wall clock and offset. -/
def formatRFC3339Nano (t : TimeStamp) : List Char :=
  natDigitsPad 4 t.year ++ '-' :: natDigitsPad 2 t.month ++ '-' :: natDigitsPad 2 t.day ++
  'T' :: natDigitsPad 2 t.hour ++ ':' :: natDigitsPad 2 t.minute ++
  ':' :: natDigitsPad 2 t.second ++ fracPart t.nanos ++ zonePart t.offsetSeconds

/-- The invariants `time.Time` guarantees of its wall-clock components,
restricted to zone offsets representable as `±hh:mm` (whole minutes), plus
the year range enforced by `time.Time.MarshalJSON`. -/
def TimeStamp.Valid (t : TimeStamp) : Prop :=
  t.year ≤ 9999 ∧ 1 ≤ t.month ∧ t.month ≤ 12 ∧ 1 ≤ t.day ∧
  t.day ≤ daysIn t.month t.year ∧ t.hour ≤ 23 ∧ t.minute ≤ 59 ∧
  t.second ≤ 59 ∧ t.nanos < 1000000000 ∧
  t.offsetSeconds % 60 = 0 ∧ -86340 ≤ t.offsetSeconds ∧ t.offsetSeconds ≤ 86340

instance (t : TimeStamp) : Decidable t.Valid := by
  unfold TimeStamp.Valid
  infer_instance

/-! ## The persisted records (types.go) and the stores (oauth.go) -/

/-- TokenStore holds OAuth tokens for persistence (types.go). -/
structure TokenStore where
  AccessToken : String
  RefreshToken : String
  TokenType : String
  Expiry : TimeStamp
deriving DecidableEq, Inhabited

/-- The in-memory token (`oauth2.Token`), restricted to the four fields
the stores read and write. -/
structure OAuthToken where
  AccessToken : String
  RefreshToken : String
  TokenType : String
  Expiry : TimeStamp
deriving DecidableEq, Inhabited

/-- Credentials holds OAuth client credentials (types.go). -/
structure Credentials where
  ClientID : String
  ClientSecret : String
deriving DecidableEq, Inhabited

/-- The outcome of reading one file, per the spec's external-interface
view of the filesystem. -/
inductive FileRead where
  | absent
  | ioError (msg : String)
  | present (data : String)
deriving DecidableEq, Inhabited

/-- The filesystem state: the credential file (config dir) and the token
file (data dir). -/
structure SystemFS where
  credFile : FileRead
  tokenFile : FileRead
deriving DecidableEq, Inhabited

/-- `json.MarshalIndent(store, "", "  ")` on a `TokenStore`, including the
year range check of `time.Time.MarshalJSON`. -/
def marshalTokenStore (store : TokenStore) : Except String (List Char) :=
  if 10000 ≤ store.Expiry.year then
    Except.error "Time.MarshalJSON: year outside of range [0,10000)"
  else
    Except.ok
      (lbrace :: '\n' :: ' ' :: ' ' :: quoteJSON "access_token" ++
       ':' :: ' ' :: quoteJSON store.AccessToken ++
       ',' :: '\n' :: ' ' :: ' ' :: quoteJSON "refresh_token" ++
       ':' :: ' ' :: quoteJSON store.RefreshToken ++
       ',' :: '\n' :: ' ' :: ' ' :: quoteJSON "token_type" ++
       ':' :: ' ' :: quoteJSON store.TokenType ++
       ',' :: '\n' :: ' ' :: ' ' :: quoteJSON "expiry" ++
       ':' :: ' ' :: quoteJSON (String.mk (formatRFC3339Nano store.Expiry)) ++
       '\n' :: [rbrace])

/-- `json.Unmarshal` into a `TokenStore`, for the flat four-field object
shape the encoder writes (the expiry string is parsed as RFC 3339, as
`time.Time.UnmarshalJSON` does). -/
def unmarshalTokenStore (s : String) : Option TokenStore := do
  let cs0 ← expectLit [lbrace] (skipWS s.data)
  let (acc, cs1) ← parseField "access_token" cs0
  let cs2 ← expectLit [','] (skipWS cs1)
  let (ref, cs3) ← parseField "refresh_token" cs2
  let cs4 ← expectLit [','] (skipWS cs3)
  let (typ, cs5) ← parseField "token_type" cs4
  let cs6 ← expectLit [','] (skipWS cs5)
  let (expStr, cs7) ← parseField "expiry" cs6
  let cs8 ← expectLit [rbrace] (skipWS cs7)
  if (skipWS cs8).isEmpty then
    let expiry ← parseRFC3339 (String.mk expStr)
    some { AccessToken := String.mk acc, RefreshToken := String.mk ref,
           TokenType := String.mk typ, Expiry := expiry }
  else none

/-- `json.Unmarshal` into `Credentials`, for the flat two-field object
shape of the credential file. -/
def decodeCredentials (s : String) : Option Credentials := do
  let cs0 ← expectLit [lbrace] (skipWS s.data)
  let (cid, cs1) ← parseField "clientId" cs0
  let cs2 ← expectLit [','] (skipWS cs1)
  let (sec, cs3) ← parseField "clientSecret" cs2
  let cs4 ← expectLit [rbrace] (skipWS cs3)
  if (skipWS cs4).isEmpty then
    some { ClientID := String.mk cid, ClientSecret := String.mk sec }
  else none

/-- LoadCredentials loads OAuth client credentials from config (oauth.go):
absent, unreadable or unparseable files and empty fields all fail. -/
def LoadCredentials (fs : SystemFS) : Except String Credentials :=
  match fs.credFile with
  | .absent => .error "credentials not found - please configure OAuth credentials"
  | .ioError e => .error ("read credentials: " ++ e)
  | .present data =>
    match decodeCredentials data with
    | none => .error "parse credentials"
    | some creds =>
      if creds.ClientID = "" || creds.ClientSecret = "" then
        .error "credentials file missing clientId or clientSecret"
      else .ok creds

/-- LoadToken loads the saved OAuth token from the data dir (oauth.go): an
absent file is success with no token; read and parse failures are errors. -/
def LoadToken (fs : SystemFS) : Except String (Option OAuthToken) :=
  match fs.tokenFile with
  | .absent => .ok none
  | .ioError e => .error ("read token: " ++ e)
  | .present data =>
    match unmarshalTokenStore data with
    | none => .error "parse token"
    | some store =>
      .ok (some { AccessToken := store.AccessToken,
                  RefreshToken := store.RefreshToken,
                  TokenType := store.TokenType, Expiry := store.Expiry })

/-- SaveToken serializes the token and overwrites the token file
(oauth.go).  The write itself is an external effect; its success is the
state update. -/
def SaveToken (token : OAuthToken) (fs : SystemFS) : Except String SystemFS :=
  let store : TokenStore :=
    { AccessToken := token.AccessToken, RefreshToken := token.RefreshToken,
      TokenType := token.TokenType, Expiry := token.Expiry }
  match marshalTokenStore store with
  | .error e => .error ("marshal token: " ++ e)
  | .ok data => .ok { fs with tokenFile := .present (String.mk data) }

/-- IsConfigured checks if credentials and token are available (oauth.go):
the credential load must succeed and the token load must succeed with a
present token. -/
def IsConfigured (fs : SystemFS) : Bool :=
  match LoadCredentials fs with
  | .error _ => false
  | .ok _ =>
    match LoadToken fs with
    | .error _ => false
    | .ok none => false
    | .ok (some _) => true

/-! ## Claim C9: IsConfigured -/

/-- Whether a store operation succeeded. -/
def loadSucceeds {α : Type} : Except String α → Bool
  | .ok _ => true
  | .error _ => false

/-- A filesystem with a valid credential file and no token file yet. -/
def credsOnlyFS : SystemFS :=
  { credFile := .present "\x7b\"clientId\": \"id\", \"clientSecret\": \"sek\"\x7d",
    tokenFile := .absent }

/-- Counterexample to claim C9 as stated: with a valid credential file and
no token file, the credential load succeeds and the token load succeeds
(an absent token file is the empty/absent success case, not an error), yet
`IsConfigured` returns false — so its result is not determined by the
success of the two loads alone. -/
theorem isConfigured_cex :
    loadSucceeds (LoadCredentials credsOnlyFS) = true ∧
    LoadToken credsOnlyFS = .ok none ∧
    loadSucceeds (LoadToken credsOnlyFS) = true ∧
    IsConfigured credsOnlyFS = false := by
  refine ⟨by decide, rfl, rfl, by decide⟩

/-- Claim C9 as amended: `IsConfigured` is true iff the credential load
succeeds and the token load succeeds with a present token (so it is false
when no token file exists yet); it is a pure function of the two load
outcomes, with no network access in the model. -/
theorem isConfigured_characterization (fs : SystemFS) :
    (IsConfigured fs = true ↔
      (∃ creds, LoadCredentials fs = .ok creds) ∧
      (∃ token, LoadToken fs = .ok (some token))) ∧
    (∀ fs2 : SystemFS, LoadCredentials fs = LoadCredentials fs2 →
      LoadToken fs = LoadToken fs2 → IsConfigured fs = IsConfigured fs2) := by
  constructor
  · unfold IsConfigured
    cases hc : LoadCredentials fs with
    | error e => simp [hc]
    | ok c =>
      cases ht : LoadToken fs with
      | error e => simp [hc, ht]
      | ok o => cases o <;> simp [hc, ht]
  · intro fs2 h1 h2
    unfold IsConfigured
    rw [h1, h2]

/-- A filesystem with both files present and valid. -/
def fullyConfiguredFS : SystemFS :=
  { credFile := .present "\x7b\"clientId\": \"id\", \"clientSecret\": \"sek\"\x7d",
    tokenFile := .present
      "\x7b\"access_token\": \"a\", \"refresh_token\": \"r\", \"token_type\": \"Bearer\", \"expiry\": \"2025-06-30T23:59:05Z\"\x7d" }

theorem isConfigured_characterization_witness :
    IsConfigured fullyConfiguredFS = true :=
  (isConfigured_characterization fullyConfiguredFS).1.mpr
    ⟨⟨{ ClientID := "id", ClientSecret := "sek" }, rfl⟩,
     ⟨{ AccessToken := "a", RefreshToken := "r", TokenType := "Bearer",
        Expiry := { year := 2025, month := 6, day := 30, hour := 23,
                    minute := 59, second := 5, nanos := 0, offsetSeconds := 0 } },
      rfl⟩⟩

/-! ## Round trip of the persisted token (claim C6): digit lemmas -/

theorem digitVal_digitChar (d : Nat) (h : d < 10) :
    digitVal (Char.ofNat (48 + d)) = some d := by
  interval_cases d <;> decide

theorem toNat_digitChar (d : Nat) (h : d < 10) :
    (Char.ofNat (48 + d)).toNat = 48 + d := by
  interval_cases d <;> decide

theorem isDigitChar_digitChar (d : Nat) (h : d < 10) :
    isDigitChar (Char.ofNat (48 + d)) = true := by
  interval_cases d <;> decide

theorem digitChar_eq_zero_iff (d : Nat) (h : d < 10) :
    Char.ofNat (48 + d) = '0' ↔ d = 0 := by
  interval_cases d <;> simp

theorem natDigitsPad_length (w n : Nat) : (natDigitsPad w n).length = w := by
  induction w generalizing n with
  | zero => rfl
  | succ w ih => simp [natDigitsPad, ih]

theorem natDigitsPad_all_digit (w n : Nat) :
    ∀ c ∈ natDigitsPad w n, isDigitChar c = true := by
  induction w generalizing n with
  | zero => simp [natDigitsPad]
  | succ w ih =>
    intro c hc
    rw [natDigitsPad] at hc
    rcases List.mem_append.mp hc with hc | hc
    · exact ih (n / 10) c hc
    · rw [List.mem_singleton] at hc
      subst hc
      exact isDigitChar_digitChar _ (Nat.mod_lt _ (by omega))

theorem natDigitsPad_two (n : Nat) :
    natDigitsPad 2 n =
      [Char.ofNat (48 + n / 10 % 10), Char.ofNat (48 + n % 10)] := by
  show natDigitsPad 1 (n / 10) ++ [Char.ofNat (48 + n % 10)] = _
  show (natDigitsPad 0 (n / 10 / 10) ++ [Char.ofNat (48 + n / 10 % 10)]) ++ _ = _
  rfl

theorem natDigitsPad_four (n : Nat) :
    natDigitsPad 4 n =
      [Char.ofNat (48 + n / 1000 % 10), Char.ofNat (48 + n / 100 % 10),
       Char.ofNat (48 + n / 10 % 10), Char.ofNat (48 + n % 10)] := by
  have h1 : n / 10 / 10 = n / 100 := by omega
  have h2 : n / 100 / 10 = n / 1000 := by omega
  simp [natDigitsPad, h1, h2]

theorem parse2_pad (n lo hi : Nat) (hn : n ≤ 99) (h1 : lo ≤ n) (h2 : n ≤ hi) :
    parse2 (Char.ofNat (48 + n / 10 % 10)) (Char.ofNat (48 + n % 10)) lo hi =
      some n := by
  unfold parse2
  rw [digitVal_digitChar _ (by omega), digitVal_digitChar _ (by omega)]
  have hv : n / 10 % 10 * 10 + n % 10 = n := by omega
  simp only [Option.bind_eq_bind, Option.some_bind, hv]
  simp [h1, h2]

theorem parse4_pad (n lo hi : Nat) (hn : n ≤ 9999) (h1 : lo ≤ n) (h2 : n ≤ hi) :
    parse4 (Char.ofNat (48 + n / 1000 % 10)) (Char.ofNat (48 + n / 100 % 10))
      (Char.ofNat (48 + n / 10 % 10)) (Char.ofNat (48 + n % 10)) lo hi =
      some n := by
  unfold parse4
  rw [digitVal_digitChar _ (by omega), digitVal_digitChar _ (by omega),
    digitVal_digitChar _ (by omega), digitVal_digitChar _ (by omega)]
  have hv : ((n / 1000 % 10 * 10 + n / 100 % 10) * 10 + n / 10 % 10) * 10 + n % 10 = n := by
    omega
  simp only [Option.bind_eq_bind, Option.some_bind, hv]
  simp [h1, h2]

theorem padVal (w : Nat) : ∀ n : Nat, n < 10 ^ w →
    (natDigitsPad w n).foldl (fun acc c => acc * 10 + (c.toNat - 48)) 0 = n := by
  induction w with
  | zero =>
    intro n hn
    simp [natDigitsPad]
    omega
  | succ w ih =>
    intro n hn
    rw [natDigitsPad, List.foldl_append]
    have hdiv : n / 10 < 10 ^ w := by
      rw [Nat.div_lt_iff_lt_mul (by omega)]
      calc n < 10 ^ (w + 1) := hn
        _ = 10 ^ w * 10 := by ring
    rw [ih (n / 10) hdiv]
    simp only [List.foldl_cons, List.foldl_nil]
    rw [toNat_digitChar _ (Nat.mod_lt _ (by omega))]
    omega

/-! ## Round trip of the fractional second and the zone -/

theorem stripTrailing_spec (w : Nat) : ∀ n : Nat, n < 10 ^ w → n ≠ 0 →
    (stripTrailingZeros (natDigitsPad w n)).length ≤ w ∧
    stripTrailingZeros (natDigitsPad w n) ≠ [] ∧
    (∀ c ∈ stripTrailingZeros (natDigitsPad w n), isDigitChar c = true) ∧
    (stripTrailingZeros (natDigitsPad w n)).foldl
        (fun acc c => acc * 10 + (c.toNat - 48)) 0 *
      10 ^ (w - (stripTrailingZeros (natDigitsPad w n)).length) = n := by
  induction w with
  | zero =>
    intro n hn hnz
    exact absurd (by omega : n = 0) hnz
  | succ w ih =>
    intro n hn hnz
    by_cases hm : n % 10 = 0
    · have hstep : stripTrailingZeros (natDigitsPad (w + 1) n) =
          stripTrailingZeros (natDigitsPad w (n / 10)) := by
        rw [natDigitsPad]
        unfold stripTrailingZeros
        rw [List.reverse_append]
        have hz : Char.ofNat (48 + n % 10) = '0' := by
          rw [hm]
        simp [hz, List.dropWhile_cons]
      have h10 : n / 10 ≠ 0 := by omega
      have hdiv : n / 10 < 10 ^ w := by
        rw [Nat.div_lt_iff_lt_mul (by omega)]
        calc n < 10 ^ (w + 1) := hn
          _ = 10 ^ w * 10 := by ring
      obtain ⟨l1, l2, l3, l4⟩ := ih (n / 10) hdiv h10
      rw [hstep]
      refine ⟨by omega, l2, l3, ?_⟩
      have hlen : w + 1 - (stripTrailingZeros (natDigitsPad w (n / 10))).length =
          (w - (stripTrailingZeros (natDigitsPad w (n / 10))).length) + 1 := by
        omega
      rw [hlen, pow_succ, ← Nat.mul_assoc, l4]
      omega
    · have hne : decide (Char.ofNat (48 + n % 10) = '0') = false := by
        rw [decide_eq_false_iff_not]
        intro hc
        exact hm ((digitChar_eq_zero_iff (n % 10) (Nat.mod_lt _ (by omega))).mp hc)
      have hstep : stripTrailingZeros (natDigitsPad (w + 1) n) =
          natDigitsPad (w + 1) n := by
        conv_lhs => rw [natDigitsPad]
        unfold stripTrailingZeros
        rw [List.reverse_append]
        simp only [List.reverse_cons, List.reverse_nil, List.nil_append,
          List.singleton_append, List.dropWhile_cons, hne, Bool.false_eq_true,
          if_false]
        rw [List.reverse_reverse, natDigitsPad]
      rw [hstep]
      refine ⟨by rw [natDigitsPad_length], ?_, natDigitsPad_all_digit _ n, ?_⟩
      · rw [natDigitsPad]
        simp
      · rw [natDigitsPad_length, Nat.sub_self, pow_zero, Nat.mul_one]
        exact padVal (w + 1) n hn

theorem takeWhile_all_append {p : Char → Bool} (b : Char) (B : List Char)
    (hb : p b = false) :
    ∀ A : List Char, (∀ c ∈ A, p c = true) →
    (A ++ b :: B).takeWhile p = A ∧ (A ++ b :: B).dropWhile p = b :: B := by
  intro A
  induction A with
  | nil =>
    intro _
    simp [List.takeWhile_cons, List.dropWhile_cons, hb]
  | cons a A ih =>
    intro hA
    have ha : p a = true := hA a (by simp)
    have hrest := ih fun c hc => hA c (by simp [hc])
    simp [List.takeWhile_cons, List.dropWhile_cons, ha, hrest.1, hrest.2]

theorem fracNanos_strip (n : Nat) (hn : n < 1000000000) (hnz : n ≠ 0) :
    fracNanos (stripTrailingZeros (natDigitsPad 9 n)) = n := by
  obtain ⟨l1, l2, l3, l4⟩ := stripTrailing_spec 9 n (by norm_num; omega) hnz
  unfold fracNanos
  rw [List.take_of_length_le (by omega)]
  exact l4

theorem parseZone_zonePart (off : Int) (hmod : off % 60 = 0)
    (hlo : -86340 ≤ off) (hhi : off ≤ 86340) :
    parseZone (zonePart off) = some off := by
  unfold zonePart
  by_cases h0 : off = 0
  · subst h0
    rfl
  · rw [if_neg h0]
    have hhm : off.natAbs / 60 / 60 ≤ 23 := by omega
    have hmm : off.natAbs / 60 % 60 ≤ 59 := by omega
    by_cases hneg : off < 0
    · rw [if_pos hneg]
      simp only [natDigitsPad_two, List.cons_append, List.nil_append, parseZone]
      rw [parse2_pad _ 0 99 (by omega) (by omega) (by omega),
        parse2_pad _ 0 99 (by omega) (by omega) (by omega)]
      simp only [Option.bind_eq_bind, Option.some_bind]
      simp only [if_true]
      rw [if_neg (by decide : ¬ ('-' : Char) = '+')]
      simp only [if_true, Option.some.injEq]
      omega
    · rw [if_neg hneg]
      simp only [natDigitsPad_two, List.cons_append, List.nil_append, parseZone]
      rw [parse2_pad _ 0 99 (by omega) (by omega) (by omega),
        parse2_pad _ 0 99 (by omega) (by omega) (by omega)]
      simp only [Option.bind_eq_bind, Option.some_bind]
      simp only [if_true, Option.some.injEq]
      omega

/-! ## Round trip of the full timestamp -/

theorem splitFrac_not_sep (c : Char) (l : List Char) (hc : ¬ (c = '.' ∨ c = ',')) :
    splitFrac (c :: l) = (0, c :: l) := by
  cases l with
  | nil => rfl
  | cons c2 cs =>
    unfold splitFrac
    dsimp only
    rw [if_neg fun hcon => hc hcon.1]

theorem splitFrac_dot (c : Char) (cs : List Char) :
    splitFrac ('.' :: c :: cs) =
      if isDigitChar c then
        (fracNanos ((c :: cs).takeWhile isDigitChar), (c :: cs).dropWhile isDigitChar)
      else (0, '.' :: c :: cs) := by
  unfold splitFrac
  dsimp only
  by_cases hc : isDigitChar c = true
  · rw [if_pos (And.intro (Or.inl rfl) hc), if_pos hc]
  · rw [if_neg fun hcon => hc hcon.2, if_neg hc]

theorem zonePart_head (off : Int) :
    ∃ b B, zonePart off = b :: B ∧ isDigitChar b = false ∧
      ¬ (b = '.' ∨ b = ',') := by
  unfold zonePart
  by_cases h0 : off = 0
  · rw [if_pos h0]
    exact ⟨'Z', [], rfl, by decide, by decide⟩
  · rw [if_neg h0]
    by_cases hneg : off < 0
    · exact ⟨'-', natDigitsPad 2 (off.natAbs / 60 / 60) ++
        ':' :: natDigitsPad 2 (off.natAbs / 60 % 60), by simp [hneg],
        by decide, by decide⟩
    · exact ⟨'+', natDigitsPad 2 (off.natAbs / 60 / 60) ++
        ':' :: natDigitsPad 2 (off.natAbs / 60 % 60), by simp [hneg],
        by decide, by decide⟩

theorem splitFrac_format (ns : Nat) (off : Int) (hns : ns < 1000000000) :
    splitFrac (fracPart ns ++ zonePart off) = (ns, zonePart off) := by
  obtain ⟨b, B, hzb, hbd, hbdot⟩ := zonePart_head off
  by_cases hns0 : ns = 0
  · subst hns0
    rw [show fracPart 0 = [] from rfl, List.nil_append, hzb,
      splitFrac_not_sep b B hbdot]
  · have hfp : fracPart ns = '.' :: stripTrailingZeros (natDigitsPad 9 ns) := by
      unfold fracPart
      rw [if_neg hns0]
    obtain ⟨l1, l2, l3, l4⟩ := stripTrailing_spec 9 ns (by norm_num; omega) hns0
    obtain ⟨c, cs', hcs⟩ : ∃ c cs',
        stripTrailingZeros (natDigitsPad 9 ns) = c :: cs' := by
      cases hh : stripTrailingZeros (natDigitsPad 9 ns) with
      | nil => exact absurd hh l2
      | cons c cs' => exact ⟨c, cs', rfl⟩
    rw [hfp, hcs, hzb]
    simp only [List.cons_append]
    rw [splitFrac_dot]
    have hc : isDigitChar c = true := l3 c (by rw [hcs]; simp)
    rw [if_pos hc]
    have hsplit := takeWhile_all_append b B hbd (c :: cs')
      (by intro x hx; apply l3; rw [hcs]; exact hx)
    rw [show c :: (cs' ++ b :: B) = (c :: cs') ++ b :: B by simp]
    rw [hsplit.1, hsplit.2, ← hcs, fracNanos_strip ns hns hns0, ← hzb]

theorem parseHour_pad2 (n : Nat) (hn : n ≤ 23) (rest : List Char) :
    parseHour (Char.ofNat (48 + n / 10 % 10) :: Char.ofNat (48 + n % 10) :: rest) =
      some (n, rest) := by
  unfold parseHour
  dsimp only
  rw [digitVal_digitChar _ (by omega)]
  simp only [Option.bind_eq_bind, Option.some_bind]
  rw [digitVal_digitChar _ (by omega)]
  dsimp only
  have hv : n / 10 % 10 * 10 + n % 10 = n := by omega
  rw [hv, if_pos hn]

/-- A valid timestamp formatted as RFC3339Nano parses back to itself. -/
theorem parseRFC3339_format (t : TimeStamp) (hv : t.Valid) :
    parseRFC3339 (String.mk (formatRFC3339Nano t)) = some t := by
  obtain ⟨y, mo, d, h, mi, s, ns, off⟩ := t
  unfold TimeStamp.Valid at hv
  dsimp only at hv
  obtain ⟨hy, hmo1, hmo2, hd1, hd2, hh, hmi, hs, hns, hoffm, hoff1, hoff2⟩ := hv
  have h31 : daysIn mo y ≤ 31 := by
    unfold daysIn
    split_ifs <;> omega
  unfold formatRFC3339Nano
  simp only [natDigitsPad_four, natDigitsPad_two]
  unfold parseRFC3339
  simp only [List.cons_append, List.nil_append, List.append_assoc]
  rw [if_pos (by decide)]
  rw [parse4_pad y 0 9999 hy (Nat.zero_le y) hy]
  simp only [Option.bind_eq_bind, Option.some_bind]
  rw [parse2_pad mo 1 12 (by omega) hmo1 hmo2]
  simp only [Option.bind_eq_bind, Option.some_bind]
  rw [parse2_pad d 1 (daysIn mo y) (by omega) hd1 hd2]
  simp only [Option.bind_eq_bind, Option.some_bind]
  rw [parseHour_pad2 h hh]
  simp only [Option.bind_eq_bind, Option.some_bind]
  rw [if_pos (by decide)]
  rw [parse2_pad mi 0 59 (by omega) (Nat.zero_le mi) hmi]
  simp only [Option.bind_eq_bind, Option.some_bind]
  rw [parse2_pad s 0 59 (by omega) (Nat.zero_le s) hs]
  simp only [Option.bind_eq_bind, Option.some_bind]
  rw [splitFrac_format ns off hns]
  dsimp only
  rw [parseZone_zonePart off hoffm hoff1 hoff2]
  simp only [Option.bind_eq_bind, Option.some_bind]

/-! ## Round trip of JSON string escaping -/

theorem parseHexDigit_hexDigitChar (m : Nat) (h : m < 16) :
    parseHexDigit (hexDigitChar m) = some m := by
  interval_cases m <;> decide

theorem parseJSONString_quote (rest : List Char) :
    parseJSONString ('\"' :: rest) = some ([], rest) := by
  unfold parseJSONString
  rw [if_pos rfl]

theorem parseJSONString_plain_step (c : Char) (rest content fin : List Char)
    (h1 : ¬ c = '\"') (h2 : ¬ c = '\\')
    (hr : parseJSONString rest = some (content, fin)) :
    parseJSONString (c :: rest) = some (c :: content, fin) := by
  unfold parseJSONString
  rw [if_neg h1, if_neg h2, hr]
  rfl

theorem parseJSONString_esc_step (e ch : Char) (rest content fin : List Char)
    (he : ¬ e = 'u') (hu : unescapeChar e = some ch)
    (hr : parseJSONString rest = some (content, fin)) :
    parseJSONString ('\\' :: e :: rest) = some (ch :: content, fin) := by
  unfold parseJSONString
  rw [if_neg (by decide), if_pos rfl]
  try dsimp only
  rw [if_neg he, hu, hr]
  rfl

theorem parseJSONString_u_step (h1 h2 h3 h4 : Char) (a b c2 d : Nat)
    (rest content fin : List Char)
    (p1 : parseHexDigit h1 = some a) (p2 : parseHexDigit h2 = some b)
    (p3 : parseHexDigit h3 = some c2) (p4 : parseHexDigit h4 = some d)
    (hr : parseJSONString rest = some (content, fin)) :
    parseJSONString ('\\' :: 'u' :: h1 :: h2 :: h3 :: h4 :: rest) =
      some (Char.ofNat (((a * 16 + b) * 16 + c2) * 16 + d) :: content, fin) := by
  unfold parseJSONString
  rw [if_neg (by decide), if_pos rfl]
  try dsimp only
  rw [if_pos rfl]
  try dsimp only
  rw [p1, p2, p3, p4, hr]
  rfl

theorem escapeChar_plain (c : Char) (n1 : ¬ c = '\"') (n2 : ¬ c = '\\')
    (n3 : ¬ c = '\n') (n4 : ¬ c = '\r') (n5 : ¬ c = '\t')
    (n6 : ¬ (c.toNat < 32 ∨ c = '<' ∨ c = '>' ∨ c = '&'))
    (n7 : ¬ (c = ' ' ∨ c = ' ')) :
    escapeChar c = [c] := by
  unfold escapeChar
  rw [if_neg n1, if_neg n2, if_neg n3, if_neg n4, if_neg n5, if_neg n6, if_neg n7]

theorem parseJSONString_escape (s : List Char) : ∀ rest : List Char,
    parseJSONString (escapeString s ++ '\"' :: rest) = some (s, rest) := by
  induction s with
  | nil =>
    intro rest
    rw [show escapeString [] = [] from rfl, List.nil_append, parseJSONString_quote]
  | cons c s ih =>
    intro rest
    have hstep : escapeString (c :: s) ++ '\"' :: rest =
        escapeChar c ++ (escapeString s ++ '\"' :: rest) := by
      simp [escapeString]
    rw [hstep]
    by_cases h1 : c = '\"'
    · subst h1
      rw [show escapeChar '\"' = ['\\', '\"'] from rfl]
      exact parseJSONString_esc_step '\"' '\"' _ s rest (by decide) rfl (ih rest)
    by_cases h2 : c = '\\'
    · subst h2
      rw [show escapeChar '\\' = ['\\', '\\'] from rfl]
      exact parseJSONString_esc_step '\\' '\\' _ s rest (by decide) rfl (ih rest)
    by_cases h3 : c = '\n'
    · subst h3
      rw [show escapeChar '\n' = ['\\', 'n'] from rfl]
      exact parseJSONString_esc_step 'n' '\n' _ s rest (by decide) rfl (ih rest)
    by_cases h4 : c = '\r'
    · subst h4
      rw [show escapeChar '\r' = ['\\', 'r'] from rfl]
      exact parseJSONString_esc_step 'r' '\r' _ s rest (by decide) rfl (ih rest)
    by_cases h5 : c = '\t'
    · subst h5
      rw [show escapeChar '\t' = ['\\', 't'] from rfl]
      exact parseJSONString_esc_step 't' '\t' _ s rest (by decide) rfl (ih rest)
    by_cases h6 : c.toNat < 32 ∨ c = '<' ∨ c = '>' ∨ c = '&'
    · have hesc : escapeChar c =
          ['\\', 'u', '0', '0', hexDigitChar (c.toNat / 16), hexDigitChar (c.toNat % 16)] := by
        unfold escapeChar
        rw [if_neg h1, if_neg h2, if_neg h3, if_neg h4, if_neg h5, if_pos h6]
      have hlt : c.toNat < 256 := by
        rcases h6 with h | h | h | h
        · omega
        all_goals subst h
        all_goals decide
      rw [hesc]
      have := parseJSONString_u_step '0' '0' (hexDigitChar (c.toNat / 16))
        (hexDigitChar (c.toNat % 16)) 0 0 (c.toNat / 16) (c.toNat % 16)
        (escapeString s ++ '\"' :: rest) s rest (by decide) (by decide)
        (parseHexDigit_hexDigitChar _ (by omega))
        (parseHexDigit_hexDigitChar _ (by omega)) (ih rest)
      rw [show (((0 * 16 + 0) * 16 + c.toNat / 16) * 16 + c.toNat % 16) = c.toNat
        by omega] at this
      rw [Char.ofNat_toNat] at this
      exact this
    by_cases h7 : c = ' ' ∨ c = ' '
    · have hesc : escapeChar c =
          ['\\', 'u', '2', '0', '2', hexDigitChar (c.toNat % 16)] := by
        unfold escapeChar
        rw [if_neg h1, if_neg h2, if_neg h3, if_neg h4, if_neg h5, if_neg h6,
          if_pos h7]
      rcases h7 with h | h
      · subst h
        rw [hesc]
        have := parseJSONString_u_step '2' '0' '2' (hexDigitChar 8) 2 0 2 8
          (escapeString s ++ '\"' :: rest) s rest (by decide) (by decide)
          (by decide) (parseHexDigit_hexDigitChar 8 (by omega)) (ih rest)
        exact this
      · subst h
        rw [hesc]
        have := parseJSONString_u_step '2' '0' '2' (hexDigitChar 9) 2 0 2 9
          (escapeString s ++ '\"' :: rest) s rest (by decide) (by decide)
          (by decide) (parseHexDigit_hexDigitChar 9 (by omega)) (ih rest)
        exact this
    · rw [escapeChar_plain c h1 h2 h3 h4 h5 h6 h7, List.singleton_append]
      exact parseJSONString_plain_step c _ s rest h1 h2 (ih rest)

/-! ## Round trip of the serialized token object -/

theorem cons_as_append (c : Char) (l : List Char) : c :: l = [c] ++ l := rfl

theorem expectLit_append (lit r : List Char) : expectLit lit (lit ++ r) = some r := by
  unfold expectLit
  rw [if_pos (List.isPrefixOf_iff_prefix.mpr (List.prefix_append lit r)),
    List.drop_left]

theorem skipWS_cons_ws (c : Char) (l : List Char) (h : jsonWS c = true) :
    skipWS (c :: l) = skipWS l := by
  unfold skipWS
  rw [List.dropWhile_cons, if_pos h]

theorem skipWS_cons_not (c : Char) (l : List Char) (h : jsonWS c = false) :
    skipWS (c :: l) = c :: l := by
  unfold skipWS
  rw [List.dropWhile_cons, if_neg (by simp [h])]

theorem parseField_line (name : String) (keyl value rest : List Char)
    (hkey : escapeString keyl = name.data) :
    parseField name ('\n' :: ' ' :: ' ' :: '\"' ::
      (escapeString keyl ++ '\"' :: ':' :: ' ' :: '\"' ::
        (escapeString value ++ '\"' :: rest))) = some (value, rest) := by
  unfold parseField
  rw [skipWS_cons_ws _ _ (by decide), skipWS_cons_ws _ _ (by decide),
    skipWS_cons_ws _ _ (by decide), skipWS_cons_not _ _ (by decide), hkey]
  rw [show ('\"' :: (name.data ++ '\"' :: ':' :: ' ' :: '\"' ::
      (escapeString value ++ '\"' :: rest))) =
      ('\"' :: name.data ++ ['\"']) ++ (':' :: ' ' :: '\"' ::
        (escapeString value ++ '\"' :: rest)) by simp]
  rw [expectLit_append]
  simp only [Option.bind_eq_bind, Option.some_bind]
  rw [skipWS_cons_not _ _ (by decide)]
  rw [show (':' :: ' ' :: '\"' :: (escapeString value ++ '\"' :: rest)) =
      [':'] ++ (' ' :: '\"' :: (escapeString value ++ '\"' :: rest)) by simp]
  rw [expectLit_append]
  simp only [Option.bind_eq_bind, Option.some_bind]
  rw [skipWS_cons_ws _ _ (by decide), skipWS_cons_not _ _ (by decide)]
  rw [show ('\"' :: (escapeString value ++ '\"' :: rest)) =
      ['\"'] ++ (escapeString value ++ '\"' :: rest) by simp]
  rw [expectLit_append]
  simp only [Option.bind_eq_bind, Option.some_bind]
  rw [parseJSONString_escape value rest]

/-- Decoding inverts encoding on every token store with a valid expiry. -/
theorem unmarshal_marshal (store : TokenStore) (data : List Char)
    (hv : store.Expiry.Valid) (hm : marshalTokenStore store = .ok data) :
    unmarshalTokenStore (String.mk data) = some store := by
  have hy : store.Expiry.year ≤ 9999 := hv.1
  unfold marshalTokenStore at hm
  rw [if_neg (by omega)] at hm
  injection hm with hm
  subst hm
  unfold unmarshalTokenStore
  simp only [quoteJSON, List.cons_append, List.nil_append, List.append_assoc]
  rw [skipWS_cons_not _ _ (by decide)]
  nth_rewrite 2 [cons_as_append lbrace]
  rw [expectLit_append]
  simp only [Option.bind_eq_bind, Option.some_bind]
  rw [parseField_line "access_token" _ _ _ (by decide)]
  simp only [Option.bind_eq_bind, Option.some_bind]
  rw [skipWS_cons_not _ _ (by decide)]
  nth_rewrite 2 [cons_as_append ',']
  rw [expectLit_append]
  simp only [Option.bind_eq_bind, Option.some_bind]
  rw [parseField_line "refresh_token" _ _ _ (by decide)]
  simp only [Option.bind_eq_bind, Option.some_bind]
  rw [skipWS_cons_not _ _ (by decide)]
  nth_rewrite 2 [cons_as_append ',']
  rw [expectLit_append]
  simp only [Option.bind_eq_bind, Option.some_bind]
  rw [parseField_line "token_type" _ _ _ (by decide)]
  simp only [Option.bind_eq_bind, Option.some_bind]
  rw [skipWS_cons_not _ _ (by decide)]
  nth_rewrite 2 [cons_as_append ',']
  rw [expectLit_append]
  simp only [Option.bind_eq_bind, Option.some_bind]
  rw [parseField_line "expiry" _ _ _ (by decide)]
  simp only [Option.bind_eq_bind, Option.some_bind]
  rw [skipWS_cons_ws _ _ (by decide), skipWS_cons_not _ _ (by decide)]
  nth_rewrite 2 [cons_as_append rbrace]
  rw [expectLit_append]
  simp only [Option.bind_eq_bind, Option.some_bind]
  rw [if_pos (by decide)]
  rw [parseRFC3339_format store.Expiry hv]
  rfl

/-! ## Claim C6: token save/load round trip -/

/-- Claim C6: a token whose expiry carries valid wall-clock components,
saved via the token store, reloads as a token with identical access token,
refresh token, token type and expiry. -/
theorem saveToken_loadToken_roundtrip (token : OAuthToken) (fs fs2 : SystemFS)
    (hv : token.Expiry.Valid) (hs : SaveToken token fs = .ok fs2) :
    ∃ token2 : OAuthToken, LoadToken fs2 = .ok (some token2) ∧
      token2.AccessToken = token.AccessToken ∧
      token2.RefreshToken = token.RefreshToken ∧
      token2.TokenType = token.TokenType ∧
      token2.Expiry = token.Expiry := by
  unfold SaveToken at hs
  dsimp only at hs
  cases hm : marshalTokenStore
      { AccessToken := token.AccessToken, RefreshToken := token.RefreshToken,
        TokenType := token.TokenType, Expiry := token.Expiry } with
  | error e =>
    rw [hm] at hs
    exact Except.noConfusion hs
  | ok data =>
    rw [hm] at hs
    injection hs with hs
    subst hs
    unfold LoadToken
    dsimp only
    rw [unmarshal_marshal _ data hv hm]
    exact ⟨_, rfl, rfl, rfl, rfl, rfl⟩

def sampleToken : OAuthToken :=
  { AccessToken := "a1", RefreshToken := "r1", TokenType := "Bearer",
    Expiry := { year := 2025, month := 6, day := 30, hour := 23, minute := 59,
                second := 5, nanos := 500000000, offsetSeconds := 3600 } }

def sampleSavedFS : SystemFS :=
  { credFile := .absent,
    tokenFile := .present
      "\x7b\n  \"access_token\": \"a1\",\n  \"refresh_token\": \"r1\",\n  \"token_type\": \"Bearer\",\n  \"expiry\": \"2025-06-30T23:59:05.5+01:00\"\n\x7d" }

theorem saveToken_loadToken_roundtrip_witness :
    SaveToken sampleToken { credFile := .absent, tokenFile := .absent } =
      .ok sampleSavedFS ∧
    ∃ token2 : OAuthToken, LoadToken sampleSavedFS = .ok (some token2) ∧
      token2.AccessToken = sampleToken.AccessToken ∧
      token2.RefreshToken = sampleToken.RefreshToken ∧
      token2.TokenType = sampleToken.TokenType ∧
      token2.Expiry = sampleToken.Expiry := by
  have hs : SaveToken sampleToken { credFile := .absent, tokenFile := .absent } =
      .ok sampleSavedFS := rfl
  exact ⟨hs, saveToken_loadToken_roundtrip sampleToken _ _ (by decide) hs⟩

end GCal
